import Mathlib

/-!
Verification of `pyraxial` (`src/pyraxial/__init__.py`)

A shallow embedding of the `Rect` module: axis-aligned rectangles as
Python tuples of float coordinates, the lattice operations
`bounding_box` (`|`) and `intersection` (`&`), ordering operators,
scaling, translation, coordinate properties, and the
connected-components algorithm behind `Rect.bounding_boxes`.

Coordinates are modelled by `Coord`: a rational number, `-inf`, `+inf`,
or `nan`, with the IEEE-style comparison used by Python floats
(`nan` compares false with everything).  A `Rect` is modelled by the
tuple it is: a `List Coord`, which is either empty (`Rect.EMPTY`) or a
non-inverted quadruple `[x0, y0, x1, y1]` — the invariant enforced by
`Rect.__new__` and captured here by `validRect`.
-/

/-- A Python float coordinate value: `nan`, `-inf`, a finite (rational)
number, or `+inf`. -/
inductive Coord where
  | nan : Coord
  | negInf : Coord
  | num : ℚ → Coord
  | posInf : Coord
deriving DecidableEq, Repr

namespace Coord

/-- Python `<=` on floats: `nan` compares false with everything. -/
def ble : Coord → Coord → Bool
  | nan, _ => false
  | _, nan => false
  | negInf, _ => true
  | _, negInf => false
  | _, posInf => true
  | posInf, _ => false
  | num a, num b => decide (a ≤ b)

/-- Python `<` on floats: `nan` compares false with everything. -/
def blt : Coord → Coord → Bool
  | nan, _ => false
  | _, nan => false
  | negInf, negInf => false
  | negInf, _ => true
  | _, negInf => false
  | posInf, _ => false
  | num _, posInf => true
  | num a, num b => decide (a < b)

/-- Python float addition (`-inf + inf = nan`, `nan` is absorbing). -/
def add : Coord → Coord → Coord
  | nan, _ => nan
  | _, nan => nan
  | negInf, posInf => nan
  | posInf, negInf => nan
  | negInf, _ => negInf
  | _, negInf => negInf
  | posInf, _ => posInf
  | _, posInf => posInf
  | num a, num b => num (a + b)

/-- Python float subtraction (`inf - inf = nan`, `nan` is absorbing). -/
def sub : Coord → Coord → Coord
  | nan, _ => nan
  | _, nan => nan
  | negInf, negInf => nan
  | posInf, posInf => nan
  | negInf, _ => negInf
  | _, posInf => negInf
  | posInf, _ => posInf
  | _, negInf => posInf
  | num a, num b => num (a - b)

/-- Python float multiplication (`inf * 0 = nan`, `nan` is absorbing). -/
def mul : Coord → Coord → Coord
  | nan, _ => nan
  | _, nan => nan
  | posInf, posInf => posInf
  | posInf, negInf => negInf
  | negInf, posInf => negInf
  | negInf, negInf => posInf
  | posInf, num b => if 0 < b then posInf else if b < 0 then negInf else nan
  | negInf, num b => if 0 < b then negInf else if b < 0 then posInf else nan
  | num a, posInf => if 0 < a then posInf else if a < 0 then negInf else nan
  | num a, negInf => if 0 < a then negInf else if a < 0 then posInf else nan
  | num a, num b => num (a * b)

/-- A coordinate that is an actual (extended) number, not `nan`. -/
def isNum : Coord → Bool
  | nan => false
  | _ => true

/-- The update step of Python's `min` over an iterable:
`if next < current: current = next`. -/
def cmin (acc b : Coord) : Coord := if blt b acc then b else acc

/-- The update step of Python's `max` over an iterable:
`if next > current: current = next`. -/
def cmax (acc b : Coord) : Coord := if blt acc b then b else acc

end Coord

/-- Python's `min` over a possibly-empty iterable (`none` models the
`ValueError` on an empty one).  `min` seeds with the first element and
folds the `<`-update over the rest. -/
def pyMin : List Coord → Option Coord
  | [] => none
  | c :: cs => some (cs.foldl Coord.cmin c)

/-- Python's `max` over a possibly-empty iterable. -/
def pyMax : List Coord → Option Coord
  | [] => none
  | c :: cs => some (cs.foldl Coord.cmax c)

/-- A Python `Rect` value is the tuple it subclasses: a list of
coordinates.  Values reachable through `Rect.__new__` satisfy
`validRect`. -/
abbrev Rect := List Coord

/-- Python `Rect.EMPTY`: the zero-length rectangle. -/
def EMPTY : Rect := []

/-- Python `Rect.PLANE`: the rectangle `(-inf, -inf, inf, inf)`. -/
def PLANE : Rect := [Coord.negInf, Coord.negInf, Coord.posInf, Coord.posInf]

/-- The invariant guaranteed by `Rect.__new__`: a `Rect` is either the
empty tuple or a quadruple `[x0, y0, x1, y1]` with `x0 <= x1` and
`y0 <= y1` (under Python float comparison). -/
def validRect : Rect → Bool
  | [] => true
  | [x0, y0, x1, y1] => x0.ble x1 && y0.ble y1
  | _ => false

/-- The success paths of `Rect.__new__` on a materialized tuple of
length 0 or 4: keep a non-inverted quadruple, collapse anything else to
the empty tuple. -/
def toRect : List Coord → Rect
  | [x0, y0, x1, y1] =>
      if x0.ble x1 && y0.ble y1 then [x0, y0, x1, y1] else []
  | _ => []

/-- The argument of `Rect.__new__`: either a non-iterable object
(materialization raises `TypeError`) or the materialized tuple. -/
inductive BoxInput where
  | notIterable : BoxInput
  | elems : List Coord → BoxInput

/-- Python `Rect.__new__` in full, `Except.error ()` modelling the raised
`ValueError`. -/
def rectNew : BoxInput → Except Unit Rect
  | BoxInput.notIterable => Except.error ()
  | BoxInput.elems box =>
      match box with
      | [x0, y0, x1, y1] =>
          if x0.ble x1 && y0.ble y1 then Except.ok [x0, y0, x1, y1]
          else Except.ok []
      | [] => Except.ok []
      | _ => Except.error ()

/-- Python `zip(*rects)`: transpose a list of tuples, truncating to the
shortest (and `zip()` of no tuples is empty). -/
def minLen : List (List Coord) → Nat
  | [] => 0
  | r :: rs => rs.foldl (fun m x => min m x.length) r.length

/-- The rows of `zip(*rects)`: row `i` collects the `i`-th coordinate of
every rect, for `i` below every length. -/
def zipAll (rs : List (List Coord)) : List (List Coord) :=
  (List.range (minLen rs)).map fun i => rs.map fun r => r.getD i Coord.nan

/-- Python `bounded_by(*limiters)`: zip the four limiters with the coordinate
columns and apply each. -/
def boundWith (limits : List (List Coord → Option Coord))
    (rects : List (List Coord)) : List Coord :=
  (List.zip limits (zipAll rects)).filterMap fun p => p.1 p.2

/-- Python `inflate = bounded_by(min, min, max, max)`. -/
def inflate (rects : List Rect) : List Coord :=
  boundWith [pyMin, pyMin, pyMax, pyMax] rects

/-- Python `deflate = bounded_by(max, max, min, min)`. -/
def deflate (rects : List Rect) : List Coord :=
  boundWith [pyMax, pyMax, pyMin, pyMin] rects

/-- Python `filter(None, rects)`: drop the falsy (zero-length) rectangles. -/
def filterTruthy (rects : List Rect) : List Rect :=
  rects.filter fun r => !r.isEmpty

/-- Python `Rect.bounding_box(*rects) = cls(inflate(*filter(None, rects)))`. -/
def boundingBox (rects : List Rect) : Rect :=
  toRect (inflate (filterTruthy rects))

/-- Python `Rect.intersection(*rects) = cls(deflate(cls.PLANE, *rects))`. -/
def intersection (rects : List Rect) : Rect :=
  toRect (deflate (PLANE :: rects))

/-- The binary join `a | b = Rect.bounding_box(a, b)`. -/
def joinR (a b : Rect) : Rect := boundingBox [a, b]

/-- The binary meet `a & b = Rect.intersection(a, b)`. -/
def meetR (a b : Rect) : Rect := intersection [a, b]

/-- The right operand of `==` / `!=`: a tuple, or any non-tuple
object. -/
inductive PyObj where
  | tup : List Coord → PyObj
  | nonTuple : PyObj

/-- Python `Rect.__eq__`: `isinstance(other, tuple) and tuple(self) == other`. -/
def pyEq (r : Rect) : PyObj → Bool
  | PyObj.tup cs => decide (r = cs)
  | PyObj.nonTuple => false

/-- Python `Rect.__ne__`: `not isinstance(other, tuple) or tuple(self) != other`. -/
def pyNe (r : Rect) : PyObj → Bool
  | PyObj.tup cs => decide (r ≠ cs)
  | PyObj.nonTuple => true

/-- Python `Rect.__le__`: `self == self.intersection(self, other)`. -/
def leR (a b : Rect) : Bool := pyEq a (PyObj.tup (meetR a b))

/-- Python `Rect.__ge__`: `self == self.bounding_box(self, other)`. -/
def geR (a b : Rect) : Bool := pyEq a (PyObj.tup (joinR a b))

/-- Python `Rect.__lt__`: `other != self == self.intersection(self, other)`
(a chained comparison: both must hold). -/
def ltR (a b : Rect) : Bool := pyNe b (PyObj.tup a) && leR a b

/-- Python `Rect.__gt__`: `other != self == self.bounding_box(self, other)`. -/
def gtR (a b : Rect) : Bool := pyNe b (PyObj.tup a) && geR a b

/-- Python `Rect.__mul__` / `__rmul__`:
`type(self)(value * scalar for value in self)`. -/
def mulR (r : Rect) (scalar : Coord) : Rect :=
  toRect (r.map fun v => v.mul scalar)

/-- Python `Rect.move(offsets)`:
`type(self)(p + d for p, d in zip(self, tuple(offsets) * 2))`. -/
def moveR (r : Rect) (offsets : Coord × Coord) : Rect :=
  toRect (List.zipWith Coord.add r [offsets.1, offsets.2, offsets.1, offsets.2])

/-- Python `Rect.from_points(left_top, right_bottom) = cls(chain(...))`:
a 4-element input, so construction never raises. -/
def fromPoints (lt rb : Coord × Coord) : Rect :=
  toRect [lt.1, lt.2, rb.1, rb.2]

/-- Python `Rect.from_size(size) = cls.from_points((0, 0), size)`. -/
def fromSize (size : Coord × Coord) : Rect :=
  fromPoints (Coord.num 0, Coord.num 0) size

/-- Python `itemgetter(i)` on a tuple: `none` models the `IndexError` raised on
a too-short tuple. -/
def item (i : Nat) (r : Rect) : Option Coord := r.get? i

/-- The `left` property (`itemgetter(0)`). -/
def leftP (r : Rect) : Option Coord := item 0 r

/-- The `top` property (`itemgetter(1)`). -/
def topP (r : Rect) : Option Coord := item 1 r

/-- The `right` property (`itemgetter(2)`). -/
def rightP (r : Rect) : Option Coord := item 2 r

/-- The `bottom` property (`itemgetter(3)`). -/
def bottomP (r : Rect) : Option Coord := item 3 r

/-- The `left_top` property (`itemgetter(0, 1)`). -/
def leftTopP (r : Rect) : Option (Coord × Coord) :=
  (leftP r).bind fun a => (topP r).map fun b => (a, b)

/-- The `right_top` property (`itemgetter(2, 1)`). -/
def rightTopP (r : Rect) : Option (Coord × Coord) :=
  (rightP r).bind fun a => (topP r).map fun b => (a, b)

/-- The `left_bottom` property (`itemgetter(0, 3)`). -/
def leftBottomP (r : Rect) : Option (Coord × Coord) :=
  (leftP r).bind fun a => (bottomP r).map fun b => (a, b)

/-- The `right_bottom` property (`itemgetter(2, 3)`). -/
def rightBottomP (r : Rect) : Option (Coord × Coord) :=
  (rightP r).bind fun a => (bottomP r).map fun b => (a, b)

/-- The `horizontal` property (`itemgetter(0, 2)`). -/
def horizontalP (r : Rect) : Option (Coord × Coord) :=
  (leftP r).bind fun a => (rightP r).map fun b => (a, b)

/-- The `vertical` property (`itemgetter(1, 3)`). -/
def verticalP (r : Rect) : Option (Coord × Coord) :=
  (topP r).bind fun a => (bottomP r).map fun b => (a, b)

/-- The `points` property: `(left_top(rect), right_bottom(rect))`. -/
def pointsP (r : Rect) : Option ((Coord × Coord) × (Coord × Coord)) :=
  (leftTopP r).bind fun a => (rightBottomP r).map fun b => (a, b)

/-- The `width` property: `right(rect) - left(rect)`. -/
def widthP (r : Rect) : Option Coord :=
  (rightP r).bind fun a => (leftP r).map fun b => a.sub b

/-- The `height` property: `bottom(rect) - top(rect)`. -/
def heightP (r : Rect) : Option Coord :=
  (bottomP r).bind fun a => (topP r).map fun b => a.sub b

/-- The `size` property: `(width(rect), height(rect))`. -/
def sizeP (r : Rect) : Option (Coord × Coord) :=
  (widthP r).bind fun a => (heightP r).map fun b => (a, b)

/-- The `area` property: `width(rect) * height(rect)`. -/
def areaP (r : Rect) : Option Coord :=
  (widthP r).bind fun a => (heightP r).map fun b => a.mul b

/-- A concrete stand-in for CPython's `hash` of one coordinate. -/
def coordHash : Coord → Nat
  | Coord.nan => 0
  | Coord.negInf => 1
  | Coord.posInf => 2
  | Coord.num q => 3 + 2 * q.num.natAbs + q.den

/-- A concrete stand-in for `tuple.__hash__`. -/
def tupleHash (cs : List Coord) : Nat :=
  cs.foldl (fun h c => h * 1000003 + coordHash c) 5381

/-- Python `Rect.__hash__ = tuple.__hash__`: the very same function applied to
the underlying tuple. -/
def rectHash (r : Rect) : Nat := tupleHash r

/-- A concrete sample rectangle, `Rect((1, 2, 3, 4))`. -/
def sampleA : Rect := [Coord.num 1, Coord.num 2, Coord.num 3, Coord.num 4]

/-- A concrete sample rectangle, `Rect((2, 3, 4, 5))`. -/
def sampleB : Rect := [Coord.num 2, Coord.num 3, Coord.num 4, Coord.num 5]

/-- A concrete sample rectangle, `Rect((0, 0, 10, 10))`. -/
def sampleC : Rect := [Coord.num 0, Coord.num 0, Coord.num 10, Coord.num 10]

/-- A concrete sample rectangle, `Rect((1, 1, 2, 2))`. -/
def sampleA1 : Rect := [Coord.num 1, Coord.num 1, Coord.num 2, Coord.num 2]

/-- A concrete sample rectangle, `Rect((0, 0, 3, 3))`. -/
def sampleA2 : Rect := [Coord.num 0, Coord.num 0, Coord.num 3, Coord.num 3]

/-- A concrete sample rectangle, `Rect((2, 2, 3, 3))`. -/
def sampleB1 : Rect := [Coord.num 2, Coord.num 2, Coord.num 3, Coord.num 3]

/-- A concrete sample rectangle, `Rect((1, 1, 4, 4))`. -/
def sampleB2 : Rect := [Coord.num 1, Coord.num 1, Coord.num 4, Coord.num 4]


/-- Horizontal overlap between stored rect `i` and query rect `r`:
the interval-tree search condition, `[a,b]` overlaps `[c,d]` iff
`a <= d` and `c <= b`, on `horizontal = itemgetter(0, 2)`. -/
def hOvB (i r : Rect) : Bool :=
  (i.getD 0 Coord.nan).ble (r.getD 2 Coord.nan) &&
  (r.getD 0 Coord.nan).ble (i.getD 2 Coord.nan)

/-- Vertical overlap, on `vertical = itemgetter(1, 3)`. -/
def vOvB (i r : Rect) : Bool :=
  (i.getD 1 Coord.nan).ble (r.getD 3 Coord.nan) &&
  (r.getD 1 Coord.nan).ble (i.getD 3 Coord.nan)

/-- Two-dimensional overlap: the horizontal-tree search result
intersected with the vertical-tree search result keeps exactly the
stored rects overlapping `r` on both axes. -/
def overlapsB (i r : Rect) : Bool := hOvB i r && vOvB i r

/-- The `neighbors` adjacency map of `_connected_components`: the rects
of the store `S` whose horizontal and vertical intervals both overlap
`r`'s (the interval-tree searches, intersected). -/
def nbr (S : List Rect) (r : Rect) : List Rect :=
  S.filter fun i => overlapsB i r

/-- The `component(node)` generator of `_connected_components`:
a worklist loop — pop a node from `todo`, add it to `seen`, push its
unseen neighbors, yield the node — returning the yielded nodes and the
final `seen`.  The loop terminates because each iteration moves one
unseen node into `seen`; `fuel` bounds the iterations and is chosen
large enough by the caller. -/
def visit (nb : Rect → List Rect) : Nat → List Rect → List Rect → List Rect × List Rect
  | 0, _, seen => ([], seen)
  | Nat.succ fuel, todo, seen =>
      match todo with
      | [] => ([], seen)
      | n :: rest =>
          let seen' := n :: seen
          let todo' :=
            rest ++ (nb n).filter fun x => decide (x ∉ seen') && decide (x ∉ rest)
          let r := visit nb fuel todo' seen'
          (n :: r.1, r.2)

/-- The outer loop of `_connected_components`: for each node not yet
seen, yield `set(component(node))`. -/
def componentsLoop (nb : Rect → List Rect) (fuel : Nat) :
    List Rect → List Rect → List (List Rect)
  | [], _ => []
  | n :: nodes, seen =>
      if n ∈ seen then componentsLoop nb fuel nodes seen
      else
        let r := visit nb fuel [n] seen
        r.1 :: componentsLoop nb fuel nodes r.2

/-- Python `rects = frozenset(filter(None, rects))`: the distinct non-empty
input rects. -/
def nonEmptyDedup (rects : List Rect) : List Rect :=
  (rects.filter fun r => !r.isEmpty).dedup

/-- Python `_connected_components(rects)` (= `Rect.partitions`). -/
def connectedComponents (rects : List Rect) : List (List Rect) :=
  let S := nonEmptyDedup rects
  componentsLoop (nbr S) S.length S []

/-- Python `Rect.bounding_boxes(rects)`: one `bounding_box` per partition. -/
def boundingBoxes (rects : List Rect) : List Rect :=
  (connectedComponents rects).map fun region => boundingBox region

/-- Reachability along an adjacency map: the reflexive-transitive
closure of "y is among x's neighbors". -/
def ReachN (nb : Rect → List Rect) : Rect → Rect → Prop :=
  Relation.ReflTransGen fun x y => y ∈ nb x

/-- Following the spec's wording, for comparison with the algorithm:
"a component is a maximal set of Rects such that any two members are
connected by a chain of pairwise-overlapping rectangles" — two rects of
the store `S` are connected when the reflexive-transitive closure of
pairwise overlap within `S` links them. -/
def SpecConnected (S : List Rect) : Rect → Rect → Prop :=
  Relation.ReflTransGen fun x y => x ∈ S ∧ y ∈ S ∧ overlapsB x y = true

/-- A concrete sample input collection for `bounding_boxes`, containing
a duplicate and an EMPTY member. -/
def sampleRects : List Rect := [sampleA, sampleB, EMPTY, sampleA, sampleB1]

/-! Order lemmas for `Coord` comparisons and the Python `min` / `max`
update steps, on coordinates that are not `nan`. -/

namespace Coord

theorem ble_ne_nan_left {a b : Coord} (h : a.ble b = true) : a ≠ nan := by
  cases a <;> simp_all [ble]

theorem ble_ne_nan_right {a b : Coord} (h : a.ble b = true) : b ≠ nan := by
  cases a <;> cases b <;> simp_all [ble]

theorem ble_refl {a : Coord} (h : a ≠ nan) : a.ble a = true := by
  cases a <;> simp_all [ble]

theorem ble_trans {a b c : Coord} (h1 : a.ble b = true) (h2 : b.ble c = true) :
    a.ble c = true := by
  cases a <;> cases b <;> cases c <;> simp_all [ble] <;> linarith

theorem ble_antisymm {a b : Coord} (h1 : a.ble b = true) (h2 : b.ble a = true) :
    a = b := by
  cases a <;> cases b <;> simp_all [ble] <;> linarith

theorem ble_total {a b : Coord} (ha : a ≠ nan) (hb : b ≠ nan) :
    a.ble b = true ∨ b.ble a = true := by
  cases a <;> cases b <;> simp_all [ble] <;> exact le_total _ _

theorem blt_irrefl (a : Coord) : a.blt a = false := by
  cases a <;> simp [blt]

theorem blt_eq_not_ble {a b : Coord} (ha : a ≠ nan) (hb : b ≠ nan) :
    a.blt b = !b.ble a := by
  cases a <;> cases b <;> try simp_all [ble, blt]
  rename_i x y
  show decide (x < y) = !decide (y ≤ x)
  by_cases h : y ≤ x
  · rw [decide_eq_true h, decide_eq_false (not_lt.mpr h)]; rfl
  · rw [decide_eq_false h, decide_eq_true (lt_of_not_le h)]; rfl

theorem cmin_self (a : Coord) : cmin a a = a := by
  simp [cmin, blt_irrefl]

theorem cmax_self (a : Coord) : cmax a a = a := by
  simp [cmax, blt_irrefl]

theorem cmin_ne_nan {a b : Coord} (ha : a ≠ nan) (hb : b ≠ nan) :
    cmin a b ≠ nan := by
  unfold cmin; split <;> assumption

theorem cmax_ne_nan {a b : Coord} (ha : a ≠ nan) (hb : b ≠ nan) :
    cmax a b ≠ nan := by
  unfold cmax; split <;> assumption

theorem cmin_eq_left {a b : Coord} (h : a.ble b = true) : cmin a b = a := by
  have ha := ble_ne_nan_left h
  have hb := ble_ne_nan_right h
  simp [cmin, blt_eq_not_ble hb ha, h]

theorem cmin_eq_right {a b : Coord} (h : b.ble a = true) : cmin a b = b := by
  have ha := ble_ne_nan_right h
  have hb := ble_ne_nan_left h
  by_cases h1 : a.ble b = true
  · rw [cmin_eq_left h1]; exact ble_antisymm h1 h
  · have h2 : a.ble b = false := by revert h1; cases (a.ble b) <;> simp
    simp [cmin, blt_eq_not_ble hb ha, h2]

theorem cmax_eq_left {a b : Coord} (h : b.ble a = true) : cmax a b = a := by
  have ha := ble_ne_nan_right h
  have hb := ble_ne_nan_left h
  simp [cmax, blt_eq_not_ble ha hb, h]

theorem cmax_eq_right {a b : Coord} (h : a.ble b = true) : cmax a b = b := by
  have ha := ble_ne_nan_left h
  have hb := ble_ne_nan_right h
  by_cases h1 : b.ble a = true
  · rw [ble_antisymm h h1, cmax_self]
  · have h2 : b.ble a = false := by revert h1; cases (b.ble a) <;> simp
    simp [cmax, blt_eq_not_ble ha hb, h2]

theorem cmin_comm {a b : Coord} (ha : a ≠ nan) (hb : b ≠ nan) :
    cmin a b = cmin b a := by
  cases ble_total ha hb with
  | inl h => rw [cmin_eq_left h, cmin_eq_right h]
  | inr h => rw [cmin_eq_right h, cmin_eq_left h]

theorem cmax_comm {a b : Coord} (ha : a ≠ nan) (hb : b ≠ nan) :
    cmax a b = cmax b a := by
  cases ble_total ha hb with
  | inl h => rw [cmax_eq_right h, cmax_eq_left h]
  | inr h => rw [cmax_eq_left h, cmax_eq_right h]

theorem ble_cmin_left {a b : Coord} (ha : a ≠ nan) (hb : b ≠ nan) :
    (cmin a b).ble a = true := by
  cases ble_total ha hb with
  | inl h => rw [cmin_eq_left h]; exact ble_refl ha
  | inr h => rw [cmin_eq_right h]; exact h

theorem ble_cmin_right {a b : Coord} (ha : a ≠ nan) (hb : b ≠ nan) :
    (cmin a b).ble b = true := by
  cases ble_total ha hb with
  | inl h => rw [cmin_eq_left h]; exact h
  | inr h => rw [cmin_eq_right h]; exact ble_refl hb

theorem ble_cmax_left {a b : Coord} (ha : a ≠ nan) (hb : b ≠ nan) :
    a.ble (cmax a b) = true := by
  cases ble_total ha hb with
  | inl h => rw [cmax_eq_right h]; exact h
  | inr h => rw [cmax_eq_left h]; exact ble_refl ha

theorem ble_cmax_right {a b : Coord} (ha : a ≠ nan) (hb : b ≠ nan) :
    b.ble (cmax a b) = true := by
  cases ble_total ha hb with
  | inl h => rw [cmax_eq_right h]; exact ble_refl hb
  | inr h => rw [cmax_eq_left h]; exact h

theorem ble_cmin_of {x y z : Coord} (hy : x.ble y = true) (hz : x.ble z = true) :
    x.ble (cmin y z) = true := by
  unfold cmin; split <;> assumption

theorem cmax_ble_of {x y z : Coord} (hy : y.ble x = true) (hz : z.ble x = true) :
    (cmax y z).ble x = true := by
  unfold cmax; split <;> assumption

theorem cmin_ble_of_left {x y z : Coord} (h : y.ble x = true) (hz : z ≠ nan) :
    (cmin y z).ble x = true := by
  have hy := ble_ne_nan_left h
  exact ble_trans (ble_cmin_left hy hz) h

theorem cmin_ble_of_right {x y z : Coord} (h : z.ble x = true) (hy : y ≠ nan) :
    (cmin y z).ble x = true := by
  have hz := ble_ne_nan_left h
  exact ble_trans (ble_cmin_right hy hz) h

theorem ble_cmax_of_left {x y z : Coord} (h : x.ble y = true) (hz : z ≠ nan) :
    x.ble (cmax y z) = true := by
  have hy := ble_ne_nan_right h
  exact ble_trans h (ble_cmax_left hy hz)

theorem ble_cmax_of_right {x y z : Coord} (h : x.ble z = true) (hy : y ≠ nan) :
    x.ble (cmax y z) = true := by
  have hz := ble_ne_nan_right h
  exact ble_trans h (ble_cmax_right hy hz)

theorem cmin_assoc {a b c : Coord} (ha : a ≠ nan) (hb : b ≠ nan) (hc : c ≠ nan) :
    cmin (cmin a b) c = cmin a (cmin b c) := by
  rcases ble_total ha hb with h1 | h1 <;> rcases ble_total hb hc with h2 | h2
  · rw [cmin_eq_left h1, cmin_eq_left h2, cmin_eq_left h1,
      cmin_eq_left (ble_trans h1 h2)]
  · rw [cmin_eq_left h1, cmin_eq_right h2]
  · rw [cmin_eq_right h1, cmin_eq_left h2, cmin_eq_right h1]
  · rw [cmin_eq_right h1, cmin_eq_right h2, cmin_eq_right (ble_trans h2 h1)]

theorem cmax_assoc {a b c : Coord} (ha : a ≠ nan) (hb : b ≠ nan) (hc : c ≠ nan) :
    cmax (cmax a b) c = cmax a (cmax b c) := by
  rcases ble_total ha hb with h1 | h1 <;> rcases ble_total hb hc with h2 | h2
  · rw [cmax_eq_right h1, cmax_eq_right h2, cmax_eq_right (ble_trans h1 h2)]
  · rw [cmax_eq_right h1, cmax_eq_left h2, cmax_eq_right h1]
  · rw [cmax_eq_left h1, cmax_eq_right h2]
  · rw [cmax_eq_left h1, cmax_eq_left h2, cmax_eq_left h1,
      cmax_eq_left (ble_trans h2 h1)]

theorem cmax_negInf {a : Coord} (ha : a ≠ nan) : cmax negInf a = a := by
  cases a <;> simp_all [cmax, blt]

theorem cmin_posInf {a : Coord} (ha : a ≠ nan) : cmin posInf a = a := by
  cases a <;> simp_all [cmin, blt]

theorem cmax_x_negInf (a : Coord) : cmax a negInf = a := by
  cases a <;> simp [cmax, blt]

theorem cmin_x_posInf (a : Coord) : cmin a posInf = a := by
  cases a <;> simp [cmin, blt]

theorem cmin_negInf {a : Coord} (ha : a ≠ nan) : cmin negInf a = negInf := by
  cases a <;> simp_all [cmin, blt]

theorem cmax_posInf {a : Coord} (ha : a ≠ nan) : cmax posInf a = posInf := by
  cases a <;> simp_all [cmax, blt]

theorem cmin_x_negInf {a : Coord} (ha : a ≠ nan) : cmin a negInf = negInf := by
  cases a <;> simp_all [cmin, blt]

theorem cmax_x_posInf {a : Coord} (ha : a ≠ nan) : cmax a posInf = posInf := by
  cases a <;> simp_all [cmax, blt]

end Coord

/-! Structural lemmas about `toRect`, the binary join and meet, and the
ordering predicates, for rectangles satisfying the construction
invariant `validRect`. -/

theorem validRect_toRect (cs : List Coord) : validRect (toRect cs) = true := by
  match cs with
  | [] => rfl
  | [_] => rfl
  | [_, _] => rfl
  | [_, _, _] => rfl
  | [x0, y0, x1, y1] =>
      by_cases h : (x0.ble x1 && y0.ble y1) = true
      · simp [toRect, h, validRect]
      · simp [toRect, h, validRect]
  | _ :: _ :: _ :: _ :: _ :: _ => rfl

theorem valid_cases {r : Rect} (h : validRect r = true) :
    r = [] ∨ ∃ a0 a1 a2 a3, r = [a0, a1, a2, a3] ∧
      a0.ble a2 = true ∧ a1.ble a3 = true := by
  match r with
  | [] => exact Or.inl rfl
  | [a0, a1, a2, a3] =>
      refine Or.inr ⟨a0, a1, a2, a3, rfl, ?_, ?_⟩ <;>
        simp_all [validRect]
  | [_] => simp [validRect] at h
  | [_, _] => simp [validRect] at h
  | [_, _, _] => simp [validRect] at h
  | _ :: _ :: _ :: _ :: _ :: _ => simp [validRect] at h

theorem toRect_valid_quad {x0 y0 x1 y1 : Coord}
    (hx : x0.ble x1 = true) (hy : y0.ble y1 = true) :
    toRect [x0, y0, x1, y1] = [x0, y0, x1, y1] := by
  simp [toRect, hx, hy]

theorem toRect_of_valid {r : Rect} (h : validRect r = true) : toRect r = r := by
  rcases valid_cases h with rfl | ⟨a0, a1, a2, a3, rfl, h1, h2⟩
  · rfl
  · exact toRect_valid_quad h1 h2

theorem join_empty_empty : joinR [] [] = [] := rfl

theorem join_empty_quad (b0 b1 b2 b3 : Coord) :
    joinR [] [b0, b1, b2, b3] = toRect [b0, b1, b2, b3] := rfl

theorem join_quad_empty (a0 a1 a2 a3 : Coord) :
    joinR [a0, a1, a2, a3] [] = toRect [a0, a1, a2, a3] := rfl

theorem join_quad_quad (a0 a1 a2 a3 b0 b1 b2 b3 : Coord) :
    joinR [a0, a1, a2, a3] [b0, b1, b2, b3] =
      toRect [Coord.cmin a0 b0, Coord.cmin a1 b1,
        Coord.cmax a2 b2, Coord.cmax a3 b3] := rfl

theorem meet_empty_left (b : Rect) : meetR [] b = [] := by
  simp [meetR, intersection, deflate, boundWith, zipAll, minLen, PLANE, toRect,
    Nat.zero_min]

theorem meet_quad_empty (a0 a1 a2 a3 : Coord) :
    meetR [a0, a1, a2, a3] [] = [] := rfl

theorem meet_quad_quad {a0 a1 a2 a3 b0 b1 b2 b3 : Coord}
    (h0 : a0 ≠ Coord.nan) (h1 : a1 ≠ Coord.nan)
    (h2 : a2 ≠ Coord.nan) (h3 : a3 ≠ Coord.nan) :
    meetR [a0, a1, a2, a3] [b0, b1, b2, b3] =
      toRect [Coord.cmax a0 b0, Coord.cmax a1 b1,
        Coord.cmin a2 b2, Coord.cmin a3 b3] := by
  show toRect [Coord.cmax (Coord.cmax Coord.negInf a0) b0,
    Coord.cmax (Coord.cmax Coord.negInf a1) b1,
    Coord.cmin (Coord.cmin Coord.posInf a2) b2,
    Coord.cmin (Coord.cmin Coord.posInf a3) b3] = _
  rw [Coord.cmax_negInf h0, Coord.cmax_negInf h1,
    Coord.cmin_posInf h2, Coord.cmin_posInf h3]

namespace Coord

theorem ble_negInf_left {a : Coord} (ha : a ≠ nan) : negInf.ble a = true := by
  cases a <;> simp_all [ble]

theorem ble_posInf_right {a : Coord} (ha : a ≠ nan) : a.ble posInf = true := by
  cases a <;> simp_all [ble]

theorem cmin_eq_left_iff {a b : Coord} (ha : a ≠ nan) (hb : b ≠ nan) :
    cmin a b = a ↔ a.ble b = true := by
  constructor
  · intro h; rw [← h]; exact ble_cmin_right ha hb
  · exact cmin_eq_left

theorem cmax_eq_left_iff {a b : Coord} (ha : a ≠ nan) (hb : b ≠ nan) :
    cmax a b = a ↔ b.ble a = true := by
  constructor
  · intro h; rw [← h]; exact ble_cmax_right ha hb
  · exact cmax_eq_left

end Coord

theorem valid_quad_ne_nan {a0 a1 a2 a3 : Coord}
    (h : validRect [a0, a1, a2, a3] = true) :
    a0 ≠ Coord.nan ∧ a1 ≠ Coord.nan ∧ a2 ≠ Coord.nan ∧ a3 ≠ Coord.nan := by
  simp only [validRect, Bool.and_eq_true] at h
  exact ⟨Coord.ble_ne_nan_left h.1, Coord.ble_ne_nan_left h.2,
    Coord.ble_ne_nan_right h.1, Coord.ble_ne_nan_right h.2⟩

theorem toRect_quad_invalid {x0 y0 x1 y1 : Coord}
    (h : (x0.ble x1 && y0.ble y1) = false) :
    toRect [x0, y0, x1, y1] = [] := by
  simp [toRect, h]

theorem meet_x_empty (a : Rect) : meetR a [] = [] := by
  simp [meetR, intersection, deflate, boundWith, zipAll, minLen, PLANE, toRect,
    Nat.min_zero]

theorem join_empty_valid {b : Rect} (hb : validRect b = true) :
    joinR [] b = b := by
  rcases valid_cases hb with rfl | ⟨b0, b1, b2, b3, rfl, h1, h2⟩
  · rfl
  · rw [join_empty_quad, toRect_valid_quad h1 h2]

theorem join_valid_empty {a : Rect} (ha : validRect a = true) :
    joinR a [] = a := by
  rcases valid_cases ha with rfl | ⟨a0, a1, a2, a3, rfl, h1, h2⟩
  · rfl
  · rw [join_quad_empty, toRect_valid_quad h1 h2]

theorem join_quad_valid {a0 a1 a2 a3 b0 b1 b2 b3 : Coord}
    (hxa : a0.ble a2 = true) (hya : a1.ble a3 = true)
    (hxb : b0.ble b2 = true) (hyb : b1.ble b3 = true) :
    joinR [a0, a1, a2, a3] [b0, b1, b2, b3] =
      [Coord.cmin a0 b0, Coord.cmin a1 b1,
        Coord.cmax a2 b2, Coord.cmax a3 b3] := by
  have na0 := Coord.ble_ne_nan_left hxa
  have na1 := Coord.ble_ne_nan_left hya
  have na2 := Coord.ble_ne_nan_right hxa
  have na3 := Coord.ble_ne_nan_right hya
  have nb0 := Coord.ble_ne_nan_left hxb
  have nb1 := Coord.ble_ne_nan_left hyb
  have nb2 := Coord.ble_ne_nan_right hxb
  have nb3 := Coord.ble_ne_nan_right hyb
  rw [join_quad_quad]
  exact toRect_valid_quad
    (Coord.ble_trans (Coord.ble_cmin_left na0 nb0)
      (Coord.ble_trans hxa (Coord.ble_cmax_left na2 nb2)))
    (Coord.ble_trans (Coord.ble_cmin_left na1 nb1)
      (Coord.ble_trans hya (Coord.ble_cmax_left na3 nb3)))

theorem join_EMPTY {a : Rect} (ha : validRect a = true) : joinR a EMPTY = a :=
  join_valid_empty ha

theorem meet_PLANE {a : Rect} (ha : validRect a = true) : meetR a PLANE = a := by
  rcases valid_cases ha with rfl | ⟨a0, a1, a2, a3, rfl, h1, h2⟩
  · exact meet_empty_left PLANE
  · obtain ⟨n0, n1, n2, n3⟩ := valid_quad_ne_nan ha
    rw [show PLANE = [Coord.negInf, Coord.negInf, Coord.posInf, Coord.posInf]
        from rfl,
      meet_quad_quad n0 n1 n2 n3, Coord.cmax_x_negInf, Coord.cmax_x_negInf,
      Coord.cmin_x_posInf, Coord.cmin_x_posInf]
    exact toRect_valid_quad h1 h2

theorem join_PLANE {a : Rect} (ha : validRect a = true) :
    joinR a PLANE = PLANE := by
  rcases valid_cases ha with rfl | ⟨a0, a1, a2, a3, rfl, h1, h2⟩
  · rfl
  · obtain ⟨n0, n1, n2, n3⟩ := valid_quad_ne_nan ha
    rw [show PLANE = [Coord.negInf, Coord.negInf, Coord.posInf, Coord.posInf]
        from rfl, join_quad_quad,
      Coord.cmin_x_negInf n0, Coord.cmin_x_negInf n1,
      Coord.cmax_x_posInf n2, Coord.cmax_x_posInf n3]
    rfl

theorem meet_EMPTY (a : Rect) : meetR a EMPTY = EMPTY := meet_x_empty a

theorem join_idem {a : Rect} (ha : validRect a = true) : joinR a a = a := by
  rcases valid_cases ha with rfl | ⟨a0, a1, a2, a3, rfl, h1, h2⟩
  · rfl
  · rw [join_quad_quad, Coord.cmin_self, Coord.cmin_self, Coord.cmax_self,
      Coord.cmax_self]
    exact toRect_valid_quad h1 h2

theorem meet_idem {a : Rect} (ha : validRect a = true) : meetR a a = a := by
  rcases valid_cases ha with rfl | ⟨a0, a1, a2, a3, rfl, h1, h2⟩
  · rfl
  · obtain ⟨n0, n1, n2, n3⟩ := valid_quad_ne_nan ha
    rw [meet_quad_quad n0 n1 n2 n3, Coord.cmax_self, Coord.cmax_self,
      Coord.cmin_self, Coord.cmin_self]
    exact toRect_valid_quad h1 h2

theorem join_comm {a b : Rect} (ha : validRect a = true)
    (hb : validRect b = true) : joinR a b = joinR b a := by
  rcases valid_cases ha with rfl | ⟨a0, a1, a2, a3, rfl, ha1, ha2⟩ <;>
    rcases valid_cases hb with rfl | ⟨b0, b1, b2, b3, rfl, hb1, hb2⟩
  · rfl
  · rw [join_empty_quad, join_quad_empty]
  · rw [join_empty_quad, join_quad_empty]
  · obtain ⟨na0, na1, na2, na3⟩ := valid_quad_ne_nan ha
    obtain ⟨nb0, nb1, nb2, nb3⟩ := valid_quad_ne_nan hb
    rw [join_quad_quad, join_quad_quad,
      Coord.cmin_comm na0 nb0, Coord.cmin_comm na1 nb1,
      Coord.cmax_comm na2 nb2, Coord.cmax_comm na3 nb3]

theorem meet_comm {a b : Rect} (ha : validRect a = true)
    (hb : validRect b = true) : meetR a b = meetR b a := by
  rcases valid_cases ha with rfl | ⟨a0, a1, a2, a3, rfl, ha1, ha2⟩ <;>
    rcases valid_cases hb with rfl | ⟨b0, b1, b2, b3, rfl, hb1, hb2⟩
  · rfl
  · rw [meet_empty_left, meet_quad_empty]
  · rw [meet_empty_left, meet_quad_empty]
  · obtain ⟨na0, na1, na2, na3⟩ := valid_quad_ne_nan ha
    obtain ⟨nb0, nb1, nb2, nb3⟩ := valid_quad_ne_nan hb
    rw [meet_quad_quad na0 na1 na2 na3, meet_quad_quad nb0 nb1 nb2 nb3,
      Coord.cmax_comm na0 nb0, Coord.cmax_comm na1 nb1,
      Coord.cmin_comm na2 nb2, Coord.cmin_comm na3 nb3]

theorem validRect_join (a b : Rect) : validRect (joinR a b) = true :=
  validRect_toRect _

theorem validRect_meet (a b : Rect) : validRect (meetR a b) = true :=
  validRect_toRect _

theorem join_assoc {a b c : Rect} (ha : validRect a = true)
    (hb : validRect b = true) (hc : validRect c = true) :
    joinR (joinR a b) c = joinR a (joinR b c) := by
  rcases valid_cases ha with rfl | ⟨a0, a1, a2, a3, rfl, ha1, ha2⟩
  · rw [join_empty_valid hb, join_empty_valid (validRect_join b c)]
  rcases valid_cases hb with rfl | ⟨b0, b1, b2, b3, rfl, hb1, hb2⟩
  · rw [join_valid_empty ha, join_empty_valid hc]
  rcases valid_cases hc with rfl | ⟨c0, c1, c2, c3, rfl, hc1, hc2⟩
  · rw [join_valid_empty (validRect_join _ _), join_valid_empty hb]
  have na0 := Coord.ble_ne_nan_left ha1
  have na1 := Coord.ble_ne_nan_left ha2
  have na2 := Coord.ble_ne_nan_right ha1
  have na3 := Coord.ble_ne_nan_right ha2
  have nb0 := Coord.ble_ne_nan_left hb1
  have nb1 := Coord.ble_ne_nan_left hb2
  have nb2 := Coord.ble_ne_nan_right hb1
  have nb3 := Coord.ble_ne_nan_right hb2
  have nc0 := Coord.ble_ne_nan_left hc1
  have nc1 := Coord.ble_ne_nan_left hc2
  have nc2 := Coord.ble_ne_nan_right hc1
  have nc3 := Coord.ble_ne_nan_right hc2
  have gab1 : (Coord.cmin a0 b0).ble (Coord.cmax a2 b2) = true :=
    Coord.ble_trans (Coord.ble_cmin_left na0 nb0)
      (Coord.ble_trans ha1 (Coord.ble_cmax_left na2 nb2))
  have gab2 : (Coord.cmin a1 b1).ble (Coord.cmax a3 b3) = true :=
    Coord.ble_trans (Coord.ble_cmin_left na1 nb1)
      (Coord.ble_trans ha2 (Coord.ble_cmax_left na3 nb3))
  have gbc1 : (Coord.cmin b0 c0).ble (Coord.cmax b2 c2) = true :=
    Coord.ble_trans (Coord.ble_cmin_left nb0 nc0)
      (Coord.ble_trans hb1 (Coord.ble_cmax_left nb2 nc2))
  have gbc2 : (Coord.cmin b1 c1).ble (Coord.cmax b3 c3) = true :=
    Coord.ble_trans (Coord.ble_cmin_left nb1 nc1)
      (Coord.ble_trans hb2 (Coord.ble_cmax_left nb3 nc3))
  rw [join_quad_valid ha1 ha2 hb1 hb2, join_quad_valid gab1 gab2 hc1 hc2,
    join_quad_valid hb1 hb2 hc1 hc2, join_quad_valid ha1 ha2 gbc1 gbc2,
    Coord.cmin_assoc na0 nb0 nc0, Coord.cmin_assoc na1 nb1 nc1,
    Coord.cmax_assoc na2 nb2 nc2, Coord.cmax_assoc na3 nb3 nc3]

theorem meet_meet_quad {a0 a1 a2 a3 b0 b1 b2 b3 c0 c1 c2 c3 : Coord}
    (na0 : a0 ≠ Coord.nan) (na1 : a1 ≠ Coord.nan)
    (na2 : a2 ≠ Coord.nan) (na3 : a3 ≠ Coord.nan)
    (nb0 : b0 ≠ Coord.nan) (nb1 : b1 ≠ Coord.nan)
    (nb2 : b2 ≠ Coord.nan) (nb3 : b3 ≠ Coord.nan)
    (nc0 : c0 ≠ Coord.nan) (nc1 : c1 ≠ Coord.nan)
    (nc2 : c2 ≠ Coord.nan) (nc3 : c3 ≠ Coord.nan) :
    meetR (meetR [a0, a1, a2, a3] [b0, b1, b2, b3]) [c0, c1, c2, c3] =
      toRect [Coord.cmax (Coord.cmax a0 b0) c0, Coord.cmax (Coord.cmax a1 b1) c1,
        Coord.cmin (Coord.cmin a2 b2) c2, Coord.cmin (Coord.cmin a3 b3) c3] := by
  rw [meet_quad_quad na0 na1 na2 na3]
  by_cases g0 : (Coord.cmax a0 b0).ble (Coord.cmin a2 b2) = true
  · by_cases g1 : (Coord.cmax a1 b1).ble (Coord.cmin a3 b3) = true
    · rw [toRect_valid_quad g0 g1,
        meet_quad_quad (Coord.cmax_ne_nan na0 nb0) (Coord.cmax_ne_nan na1 nb1)
          (Coord.cmin_ne_nan na2 nb2) (Coord.cmin_ne_nan na3 nb3)]
    · have g1f := Bool.eq_false_iff.mpr g1
      rw [toRect_quad_invalid (by rw [g1f, Bool.and_false]), meet_empty_left]
      have hfalse : (Coord.cmax (Coord.cmax a1 b1) c1).ble
          (Coord.cmin (Coord.cmin a3 b3) c3) = false := by
        apply Bool.eq_false_iff.mpr
        intro hcontra
        apply g1
        exact Coord.ble_trans
          (Coord.ble_cmax_left (Coord.cmax_ne_nan na1 nb1) nc1)
          (Coord.ble_trans hcontra
            (Coord.ble_cmin_left (Coord.cmin_ne_nan na3 nb3) nc3))
      rw [toRect_quad_invalid (by rw [hfalse, Bool.and_false])]
  · have g0f := Bool.eq_false_iff.mpr g0
    rw [toRect_quad_invalid (by rw [g0f, Bool.false_and]), meet_empty_left]
    have hfalse : (Coord.cmax (Coord.cmax a0 b0) c0).ble
        (Coord.cmin (Coord.cmin a2 b2) c2) = false := by
      apply Bool.eq_false_iff.mpr
      intro hcontra
      apply g0
      exact Coord.ble_trans
        (Coord.ble_cmax_left (Coord.cmax_ne_nan na0 nb0) nc0)
        (Coord.ble_trans hcontra
          (Coord.ble_cmin_left (Coord.cmin_ne_nan na2 nb2) nc2))
    rw [toRect_quad_invalid (by rw [hfalse, Bool.false_and])]

theorem meet_assoc {a b c : Rect} (ha : validRect a = true)
    (hb : validRect b = true) (hc : validRect c = true) :
    meetR (meetR a b) c = meetR a (meetR b c) := by
  rcases valid_cases ha with rfl | ⟨a0, a1, a2, a3, rfl, ha1, ha2⟩
  · rw [meet_empty_left, meet_empty_left, meet_empty_left]
  rcases valid_cases hb with rfl | ⟨b0, b1, b2, b3, rfl, hb1, hb2⟩
  · rw [meet_x_empty, meet_empty_left, meet_x_empty]
  rcases valid_cases hc with rfl | ⟨c0, c1, c2, c3, rfl, hc1, hc2⟩
  · rw [meet_x_empty, meet_x_empty, meet_x_empty]
  obtain ⟨na0, na1, na2, na3⟩ := valid_quad_ne_nan ha
  obtain ⟨nb0, nb1, nb2, nb3⟩ := valid_quad_ne_nan hb
  obtain ⟨nc0, nc1, nc2, nc3⟩ := valid_quad_ne_nan hc
  rw [meet_comm ha (validRect_meet _ _),
    meet_meet_quad na0 na1 na2 na3 nb0 nb1 nb2 nb3 nc0 nc1 nc2 nc3,
    meet_meet_quad nb0 nb1 nb2 nb3 nc0 nc1 nc2 nc3 na0 na1 na2 na3]
  have e0 : Coord.cmax (Coord.cmax b0 c0) a0 = Coord.cmax (Coord.cmax a0 b0) c0 := by
    rw [Coord.cmax_comm (Coord.cmax_ne_nan nb0 nc0) na0,
      ← Coord.cmax_assoc na0 nb0 nc0]
  have e1 : Coord.cmax (Coord.cmax b1 c1) a1 = Coord.cmax (Coord.cmax a1 b1) c1 := by
    rw [Coord.cmax_comm (Coord.cmax_ne_nan nb1 nc1) na1,
      ← Coord.cmax_assoc na1 nb1 nc1]
  have e2 : Coord.cmin (Coord.cmin b2 c2) a2 = Coord.cmin (Coord.cmin a2 b2) c2 := by
    rw [Coord.cmin_comm (Coord.cmin_ne_nan nb2 nc2) na2,
      ← Coord.cmin_assoc na2 nb2 nc2]
  have e3 : Coord.cmin (Coord.cmin b3 c3) a3 = Coord.cmin (Coord.cmin a3 b3) c3 := by
    rw [Coord.cmin_comm (Coord.cmin_ne_nan nb3 nc3) na3,
      ← Coord.cmin_assoc na3 nb3 nc3]
  rw [e0, e1, e2, e3]

theorem join_meet_absorb {a b : Rect} (ha : validRect a = true)
    (hb : validRect b = true) : joinR a (meetR a b) = a := by
  rcases valid_cases ha with rfl | ⟨a0, a1, a2, a3, rfl, ha1, ha2⟩
  · rw [meet_empty_left]; rfl
  rcases valid_cases hb with rfl | ⟨b0, b1, b2, b3, rfl, hb1, hb2⟩
  · rw [meet_x_empty, join_valid_empty ha]
  obtain ⟨na0, na1, na2, na3⟩ := valid_quad_ne_nan ha
  obtain ⟨nb0, nb1, nb2, nb3⟩ := valid_quad_ne_nan hb
  rw [meet_quad_quad na0 na1 na2 na3]
  by_cases g0 : (Coord.cmax a0 b0).ble (Coord.cmin a2 b2) = true
  · by_cases g1 : (Coord.cmax a1 b1).ble (Coord.cmin a3 b3) = true
    · rw [toRect_valid_quad g0 g1, join_quad_valid ha1 ha2 g0 g1,
        Coord.cmin_eq_left (Coord.ble_cmax_left na0 nb0),
        Coord.cmin_eq_left (Coord.ble_cmax_left na1 nb1),
        Coord.cmax_eq_left (Coord.ble_cmin_left na2 nb2),
        Coord.cmax_eq_left (Coord.ble_cmin_left na3 nb3)]
    · rw [toRect_quad_invalid
        (by rw [Bool.eq_false_iff.mpr g1, Bool.and_false]), join_valid_empty ha]
  · rw [toRect_quad_invalid
      (by rw [Bool.eq_false_iff.mpr g0, Bool.false_and]), join_valid_empty ha]

theorem meet_join_absorb {a b : Rect} (ha : validRect a = true)
    (hb : validRect b = true) : meetR a (joinR a b) = a := by
  rcases valid_cases ha with rfl | ⟨a0, a1, a2, a3, rfl, ha1, ha2⟩
  · rw [meet_empty_left]
  rcases valid_cases hb with rfl | ⟨b0, b1, b2, b3, rfl, hb1, hb2⟩
  · rw [join_valid_empty ha, meet_idem ha]
  obtain ⟨na0, na1, na2, na3⟩ := valid_quad_ne_nan ha
  obtain ⟨nb0, nb1, nb2, nb3⟩ := valid_quad_ne_nan hb
  rw [join_quad_valid ha1 ha2 hb1 hb2, meet_quad_quad na0 na1 na2 na3,
    Coord.cmax_eq_left (Coord.ble_cmin_left na0 nb0),
    Coord.cmax_eq_left (Coord.ble_cmin_left na1 nb1),
    Coord.cmin_eq_left (Coord.ble_cmax_left na2 nb2),
    Coord.cmin_eq_left (Coord.ble_cmax_left na3 nb3)]
  exact toRect_valid_quad ha1 ha2

theorem leR_empty_left (b : Rect) : leR [] b = true := by
  simp [leR, pyEq, meet_empty_left]

theorem leR_quad_empty (a0 a1 a2 a3 : Coord) :
    leR [a0, a1, a2, a3] [] = false := by
  simp [leR, pyEq, meet_x_empty]

theorem leR_quad_iff {a0 a1 a2 a3 b0 b1 b2 b3 : Coord}
    (hxa : a0.ble a2 = true) (hya : a1.ble a3 = true)
    (hxb : b0.ble b2 = true) (hyb : b1.ble b3 = true) :
    leR [a0, a1, a2, a3] [b0, b1, b2, b3] = true ↔
      (b0.ble a0 = true ∧ b1.ble a1 = true ∧
        a2.ble b2 = true ∧ a3.ble b3 = true) := by
  have na0 := Coord.ble_ne_nan_left hxa
  have na1 := Coord.ble_ne_nan_left hya
  have na2 := Coord.ble_ne_nan_right hxa
  have na3 := Coord.ble_ne_nan_right hya
  have nb0 := Coord.ble_ne_nan_left hxb
  have nb1 := Coord.ble_ne_nan_left hyb
  have nb2 := Coord.ble_ne_nan_right hxb
  have nb3 := Coord.ble_ne_nan_right hyb
  unfold leR pyEq
  rw [meet_quad_quad na0 na1 na2 na3]
  by_cases g0 : (Coord.cmax a0 b0).ble (Coord.cmin a2 b2) = true
  · by_cases g1 : (Coord.cmax a1 b1).ble (Coord.cmin a3 b3) = true
    · rw [toRect_valid_quad g0 g1]
      simp only [decide_eq_true_eq, List.cons.injEq, and_true]
      constructor
      · rintro ⟨e0, e1, e2, e3⟩
        exact ⟨(Coord.cmax_eq_left_iff na0 nb0).mp e0.symm,
          (Coord.cmax_eq_left_iff na1 nb1).mp e1.symm,
          (Coord.cmin_eq_left_iff na2 nb2).mp e2.symm,
          (Coord.cmin_eq_left_iff na3 nb3).mp e3.symm⟩
      · rintro ⟨l0, l1, l2, l3⟩
        exact ⟨(Coord.cmax_eq_left l0).symm, (Coord.cmax_eq_left l1).symm,
          (Coord.cmin_eq_left l2).symm, (Coord.cmin_eq_left l3).symm⟩
    · rw [toRect_quad_invalid (by rw [Bool.eq_false_iff.mpr g1, Bool.and_false])]
      simp only [decide_eq_true_eq]
      constructor
      · intro h; cases h
      · rintro ⟨l0, l1, l2, l3⟩
        exfalso
        apply g1
        rw [Coord.cmax_eq_left l1, Coord.cmin_eq_left l3]
        exact hya
  · rw [toRect_quad_invalid (by rw [Bool.eq_false_iff.mpr g0, Bool.false_and])]
    simp only [decide_eq_true_eq]
    constructor
    · intro h; cases h
    · rintro ⟨l0, l1, l2, l3⟩
      exfalso
      apply g0
      rw [Coord.cmax_eq_left l0, Coord.cmin_eq_left l2]
      exact hxa

theorem leR_refl {a : Rect} (ha : validRect a = true) : leR a a = true := by
  rcases valid_cases ha with rfl | ⟨a0, a1, a2, a3, rfl, h1, h2⟩
  · exact leR_empty_left []
  · obtain ⟨n0, n1, n2, n3⟩ := valid_quad_ne_nan ha
    exact (leR_quad_iff h1 h2 h1 h2).mpr
      ⟨Coord.ble_refl n0, Coord.ble_refl n1, Coord.ble_refl n2, Coord.ble_refl n3⟩

theorem leR_trans {a b c : Rect} (ha : validRect a = true)
    (hb : validRect b = true) (hc : validRect c = true)
    (hab : leR a b = true) (hbc : leR b c = true) : leR a c = true := by
  rcases valid_cases ha with rfl | ⟨a0, a1, a2, a3, rfl, ha1, ha2⟩
  · exact leR_empty_left c
  rcases valid_cases hb with rfl | ⟨b0, b1, b2, b3, rfl, hb1, hb2⟩
  · rw [leR_quad_empty] at hab; cases hab
  rcases valid_cases hc with rfl | ⟨c0, c1, c2, c3, rfl, hc1, hc2⟩
  · rw [leR_quad_empty] at hbc; cases hbc
  obtain ⟨l0, l1, l2, l3⟩ := (leR_quad_iff ha1 ha2 hb1 hb2).mp hab
  obtain ⟨m0, m1, m2, m3⟩ := (leR_quad_iff hb1 hb2 hc1 hc2).mp hbc
  exact (leR_quad_iff ha1 ha2 hc1 hc2).mpr
    ⟨Coord.ble_trans m0 l0, Coord.ble_trans m1 l1,
      Coord.ble_trans l2 m2, Coord.ble_trans l3 m3⟩

theorem leR_antisymm_iff {a b : Rect} (ha : validRect a = true)
    (hb : validRect b = true) :
    (leR a b = true ∧ leR b a = true) ↔ a = b := by
  constructor
  · rintro ⟨hab, hba⟩
    rcases valid_cases ha with rfl | ⟨a0, a1, a2, a3, rfl, ha1, ha2⟩ <;>
      rcases valid_cases hb with rfl | ⟨b0, b1, b2, b3, rfl, hb1, hb2⟩
    · rfl
    · rw [leR_quad_empty] at hba; cases hba
    · rw [leR_quad_empty] at hab; cases hab
    · obtain ⟨l0, l1, l2, l3⟩ := (leR_quad_iff ha1 ha2 hb1 hb2).mp hab
      obtain ⟨m0, m1, m2, m3⟩ := (leR_quad_iff hb1 hb2 ha1 ha2).mp hba
      rw [Coord.ble_antisymm m0 l0, Coord.ble_antisymm m1 l1,
        Coord.ble_antisymm l2 m2, Coord.ble_antisymm l3 m3]
  · rintro rfl
    exact ⟨leR_refl ha, leR_refl ha⟩

theorem leR_PLANE {a : Rect} (ha : validRect a = true) : leR a PLANE = true := by
  rcases valid_cases ha with rfl | ⟨a0, a1, a2, a3, rfl, h1, h2⟩
  · exact leR_empty_left PLANE
  · obtain ⟨n0, n1, n2, n3⟩ := valid_quad_ne_nan ha
    show leR [a0, a1, a2, a3]
      [Coord.negInf, Coord.negInf, Coord.posInf, Coord.posInf] = true
    have hpb : (Coord.negInf).ble Coord.posInf = true := rfl
    exact (leR_quad_iff h1 h2 hpb hpb).mpr
      ⟨Coord.ble_negInf_left n0, Coord.ble_negInf_left n1,
        Coord.ble_posInf_right n2, Coord.ble_posInf_right n3⟩

theorem geR_iff_leR {a b : Rect} (ha : validRect a = true)
    (hb : validRect b = true) : geR a b = true ↔ leR b a = true := by
  rcases valid_cases ha with rfl | ⟨a0, a1, a2, a3, rfl, ha1, ha2⟩ <;>
    rcases valid_cases hb with rfl | ⟨b0, b1, b2, b3, rfl, hb1, hb2⟩
  · simp [geR, pyEq, join_empty_empty, leR_empty_left]
  · rw [leR_quad_empty]
    simp [geR, pyEq, join_empty_quad, toRect_valid_quad hb1 hb2]
  · rw [leR_empty_left]
    simp [geR, pyEq, join_quad_empty, toRect_valid_quad ha1 ha2]
  · obtain ⟨na0, na1, na2, na3⟩ := valid_quad_ne_nan ha
    obtain ⟨nb0, nb1, nb2, nb3⟩ := valid_quad_ne_nan hb
    rw [leR_quad_iff hb1 hb2 ha1 ha2]
    unfold geR pyEq
    rw [join_quad_valid ha1 ha2 hb1 hb2]
    simp only [decide_eq_true_eq, List.cons.injEq, and_true]
    constructor
    · rintro ⟨e0, e1, e2, e3⟩
      exact ⟨(Coord.cmin_eq_left_iff na0 nb0).mp e0.symm,
        (Coord.cmin_eq_left_iff na1 nb1).mp e1.symm,
        (Coord.cmax_eq_left_iff na2 nb2).mp e2.symm,
        (Coord.cmax_eq_left_iff na3 nb3).mp e3.symm⟩
    · rintro ⟨l0, l1, l2, l3⟩
      exact ⟨(Coord.cmin_eq_left l0).symm, (Coord.cmin_eq_left l1).symm,
        (Coord.cmax_eq_left l2).symm, (Coord.cmax_eq_left l3).symm⟩

theorem le_join_left {a b : Rect} (ha : validRect a = true)
    (hb : validRect b = true) : leR a (joinR a b) = true := by
  rcases valid_cases ha with rfl | ⟨a0, a1, a2, a3, rfl, ha1, ha2⟩
  · exact leR_empty_left _
  rcases valid_cases hb with rfl | ⟨b0, b1, b2, b3, rfl, hb1, hb2⟩
  · rw [join_valid_empty ha]; exact leR_refl ha
  obtain ⟨na0, na1, na2, na3⟩ := valid_quad_ne_nan ha
  obtain ⟨nb0, nb1, nb2, nb3⟩ := valid_quad_ne_nan hb
  have gab1 : (Coord.cmin a0 b0).ble (Coord.cmax a2 b2) = true :=
    Coord.ble_trans (Coord.ble_cmin_left na0 nb0)
      (Coord.ble_trans ha1 (Coord.ble_cmax_left na2 nb2))
  have gab2 : (Coord.cmin a1 b1).ble (Coord.cmax a3 b3) = true :=
    Coord.ble_trans (Coord.ble_cmin_left na1 nb1)
      (Coord.ble_trans ha2 (Coord.ble_cmax_left na3 nb3))
  rw [join_quad_valid ha1 ha2 hb1 hb2]
  exact (leR_quad_iff ha1 ha2 gab1 gab2).mpr
    ⟨Coord.ble_cmin_left na0 nb0, Coord.ble_cmin_left na1 nb1,
      Coord.ble_cmax_left na2 nb2, Coord.ble_cmax_left na3 nb3⟩

theorem le_join_right {a b : Rect} (ha : validRect a = true)
    (hb : validRect b = true) : leR b (joinR a b) = true := by
  rw [join_comm ha hb]; exact le_join_left hb ha

theorem meet_le_left {a b : Rect} (ha : validRect a = true)
    (hb : validRect b = true) : leR (meetR a b) a = true := by
  rcases valid_cases ha with rfl | ⟨a0, a1, a2, a3, rfl, ha1, ha2⟩
  · rw [meet_empty_left]; exact leR_empty_left []
  rcases valid_cases hb with rfl | ⟨b0, b1, b2, b3, rfl, hb1, hb2⟩
  · rw [meet_x_empty]; exact leR_empty_left _
  obtain ⟨na0, na1, na2, na3⟩ := valid_quad_ne_nan ha
  obtain ⟨nb0, nb1, nb2, nb3⟩ := valid_quad_ne_nan hb
  rw [meet_quad_quad na0 na1 na2 na3]
  by_cases g0 : (Coord.cmax a0 b0).ble (Coord.cmin a2 b2) = true
  · by_cases g1 : (Coord.cmax a1 b1).ble (Coord.cmin a3 b3) = true
    · rw [toRect_valid_quad g0 g1]
      exact (leR_quad_iff g0 g1 ha1 ha2).mpr
        ⟨Coord.ble_cmax_left na0 nb0, Coord.ble_cmax_left na1 nb1,
          Coord.ble_cmin_left na2 nb2, Coord.ble_cmin_left na3 nb3⟩
    · rw [toRect_quad_invalid (by rw [Bool.eq_false_iff.mpr g1, Bool.and_false])]
      exact leR_empty_left _
  · rw [toRect_quad_invalid (by rw [Bool.eq_false_iff.mpr g0, Bool.false_and])]
    exact leR_empty_left _

theorem meet_le_right {a b : Rect} (ha : validRect a = true)
    (hb : validRect b = true) : leR (meetR a b) b = true := by
  rw [meet_comm ha hb]; exact meet_le_left hb ha

theorem join_le {a b c : Rect} (ha : validRect a = true)
    (hb : validRect b = true) (hc : validRect c = true)
    (h1 : leR a c = true) (h2 : leR b c = true) :
    leR (joinR a b) c = true := by
  rcases valid_cases ha with rfl | ⟨a0, a1, a2, a3, rfl, ha1, ha2⟩
  · rw [join_empty_valid hb]; exact h2
  rcases valid_cases hb with rfl | ⟨b0, b1, b2, b3, rfl, hb1, hb2⟩
  · rw [join_valid_empty ha]; exact h1
  rcases valid_cases hc with rfl | ⟨c0, c1, c2, c3, rfl, hc1, hc2⟩
  · rw [leR_quad_empty] at h1; cases h1
  obtain ⟨na0, na1, na2, na3⟩ := valid_quad_ne_nan ha
  obtain ⟨nb0, nb1, nb2, nb3⟩ := valid_quad_ne_nan hb
  obtain ⟨l0, l1, l2, l3⟩ := (leR_quad_iff ha1 ha2 hc1 hc2).mp h1
  obtain ⟨m0, m1, m2, m3⟩ := (leR_quad_iff hb1 hb2 hc1 hc2).mp h2
  have gab1 : (Coord.cmin a0 b0).ble (Coord.cmax a2 b2) = true :=
    Coord.ble_trans (Coord.ble_cmin_left na0 nb0)
      (Coord.ble_trans ha1 (Coord.ble_cmax_left na2 nb2))
  have gab2 : (Coord.cmin a1 b1).ble (Coord.cmax a3 b3) = true :=
    Coord.ble_trans (Coord.ble_cmin_left na1 nb1)
      (Coord.ble_trans ha2 (Coord.ble_cmax_left na3 nb3))
  rw [join_quad_valid ha1 ha2 hb1 hb2]
  exact (leR_quad_iff gab1 gab2 hc1 hc2).mpr
    ⟨Coord.ble_cmin_of l0 m0, Coord.ble_cmin_of l1 m1,
      Coord.cmax_ble_of l2 m2, Coord.cmax_ble_of l3 m3⟩

theorem le_meet {a b c : Rect} (ha : validRect a = true)
    (hb : validRect b = true) (hc : validRect c = true)
    (h1 : leR c a = true) (h2 : leR c b = true) :
    leR c (meetR a b) = true := by
  rcases valid_cases hc with rfl | ⟨c0, c1, c2, c3, rfl, hc1, hc2⟩
  · exact leR_empty_left _
  rcases valid_cases ha with rfl | ⟨a0, a1, a2, a3, rfl, ha1, ha2⟩
  · rw [leR_quad_empty] at h1; cases h1
  rcases valid_cases hb with rfl | ⟨b0, b1, b2, b3, rfl, hb1, hb2⟩
  · rw [leR_quad_empty] at h2; cases h2
  obtain ⟨na0, na1, na2, na3⟩ := valid_quad_ne_nan ha
  obtain ⟨nb0, nb1, nb2, nb3⟩ := valid_quad_ne_nan hb
  obtain ⟨nc0, nc1, nc2, nc3⟩ := valid_quad_ne_nan hc
  obtain ⟨l0, l1, l2, l3⟩ := (leR_quad_iff hc1 hc2 ha1 ha2).mp h1
  obtain ⟨m0, m1, m2, m3⟩ := (leR_quad_iff hc1 hc2 hb1 hb2).mp h2
  have g0 : (Coord.cmax a0 b0).ble (Coord.cmin a2 b2) = true :=
    Coord.ble_trans (Coord.cmax_ble_of l0 m0)
      (Coord.ble_trans hc1 (Coord.ble_cmin_of l2 m2))
  have g1 : (Coord.cmax a1 b1).ble (Coord.cmin a3 b3) = true :=
    Coord.ble_trans (Coord.cmax_ble_of l1 m1)
      (Coord.ble_trans hc2 (Coord.ble_cmin_of l3 m3))
  rw [meet_quad_quad na0 na1 na2 na3, toRect_valid_quad g0 g1]
  exact (leR_quad_iff hc1 hc2 g0 g1).mpr
    ⟨Coord.cmax_ble_of l0 m0, Coord.cmax_ble_of l1 m1,
      Coord.ble_cmin_of l2 m2, Coord.ble_cmin_of l3 m3⟩

theorem join_mono {a1 a2 b1 b2 : Rect} (ha1 : validRect a1 = true)
    (ha2 : validRect a2 = true) (hb1 : validRect b1 = true)
    (hb2 : validRect b2 = true) (h1 : leR a1 a2 = true)
    (h2 : leR b1 b2 = true) : leR (joinR a1 b1) (joinR a2 b2) = true :=
  join_le ha1 hb1 (validRect_join a2 b2)
    (leR_trans ha1 ha2 (validRect_join a2 b2) h1 (le_join_left ha2 hb2))
    (leR_trans hb1 hb2 (validRect_join a2 b2) h2 (le_join_right ha2 hb2))

theorem meet_mono {a1 a2 b1 b2 : Rect} (ha1 : validRect a1 = true)
    (ha2 : validRect a2 = true) (hb1 : validRect b1 = true)
    (hb2 : validRect b2 = true) (h1 : leR a1 a2 = true)
    (h2 : leR b1 b2 = true) : leR (meetR a1 b1) (meetR a2 b2) = true :=
  le_meet ha2 hb2 (validRect_meet a1 b1)
    (leR_trans (validRect_meet a1 b1) ha1 ha2 (meet_le_left ha1 hb1) h1)
    (leR_trans (validRect_meet a1 b1) hb1 hb2 (meet_le_right ha1 hb1) h2)

theorem semidistrib1 {a b c : Rect} (ha : validRect a = true)
    (hb : validRect b = true) (hc : validRect c = true) :
    leR (joinR (meetR a b) (meetR a c)) (meetR a (joinR b c)) = true :=
  join_le (validRect_meet a b) (validRect_meet a c)
    (validRect_meet a (joinR b c))
    (le_meet ha (validRect_join b c) (validRect_meet a b)
      (meet_le_left ha hb)
      (leR_trans (validRect_meet a b) hb (validRect_join b c)
        (meet_le_right ha hb) (le_join_left hb hc)))
    (le_meet ha (validRect_join b c) (validRect_meet a c)
      (meet_le_left ha hc)
      (leR_trans (validRect_meet a c) hc (validRect_join b c)
        (meet_le_right ha hc) (le_join_right hb hc)))

theorem semidistrib2 {a b c : Rect} (ha : validRect a = true)
    (hb : validRect b = true) (hc : validRect c = true) :
    leR (joinR a (meetR b c)) (meetR (joinR a b) (joinR a c)) = true :=
  le_meet (validRect_join a b) (validRect_join a c)
    (validRect_join a (meetR b c))
    (join_mono ha ha (validRect_meet b c) hb (leR_refl ha) (meet_le_left hb hc))
    (join_mono ha ha (validRect_meet b c) hc (leR_refl ha) (meet_le_right hb hc))

/-! Claim theorems for the algebraic laws, ordering, construction,
scaling, equality, properties, canonical form and hashing. -/

/-- C2: for all Rects a, b, c, `enclose` (binary `|`, `joinR`) and
`overlap` (binary `&`, `meetR`) satisfy the complete-lattice laws:
identity elements, absorbing elements, idempotency, commutativity,
associativity, absorption, monotonicity and semidistributivity. -/
theorem c2_lattice_laws :
    (∀ a b c : Rect, validRect a = true → validRect b = true →
      validRect c = true →
      (joinR a EMPTY = a ∧ meetR a PLANE = a) ∧
      (joinR a PLANE = PLANE ∧ meetR a EMPTY = EMPTY) ∧
      (joinR a a = a ∧ meetR a a = a) ∧
      (joinR a b = joinR b a ∧ meetR a b = meetR b a) ∧
      (joinR (joinR a b) c = joinR a (joinR b c) ∧
        meetR (meetR a b) c = meetR a (meetR b c)) ∧
      (joinR a (meetR a b) = a ∧ meetR a (joinR a b) = a) ∧
      (leR (joinR (meetR a b) (meetR a c)) (meetR a (joinR b c)) = true ∧
        leR (joinR a (meetR b c)) (meetR (joinR a b) (joinR a c)) = true)) ∧
    (∀ a1 a2 b1 b2 : Rect, validRect a1 = true → validRect a2 = true →
      validRect b1 = true → validRect b2 = true →
      leR a1 a2 = true → leR b1 b2 = true →
      leR (joinR a1 b1) (joinR a2 b2) = true ∧
      leR (meetR a1 b1) (meetR a2 b2) = true) := by
  constructor
  · intro a b c ha hb hc
    exact ⟨⟨join_EMPTY ha, meet_PLANE ha⟩,
      ⟨join_PLANE ha, meet_EMPTY a⟩,
      ⟨join_idem ha, meet_idem ha⟩,
      ⟨join_comm ha hb, meet_comm ha hb⟩,
      ⟨join_assoc ha hb hc, meet_assoc ha hb hc⟩,
      ⟨join_meet_absorb ha hb, meet_join_absorb ha hb⟩,
      ⟨semidistrib1 ha hb hc, semidistrib2 ha hb hc⟩⟩
  · intro a1 a2 b1 b2 ha1 ha2 hb1 hb2 h1 h2
    exact ⟨join_mono ha1 ha2 hb1 hb2 h1 h2, meet_mono ha1 ha2 hb1 hb2 h1 h2⟩

/-- Witness for C2 at the sample rectangles. -/
theorem c2_witness :
    ((joinR sampleA EMPTY = sampleA ∧ meetR sampleA PLANE = sampleA) ∧
      (joinR sampleA PLANE = PLANE ∧ meetR sampleA EMPTY = EMPTY) ∧
      (joinR sampleA sampleA = sampleA ∧ meetR sampleA sampleA = sampleA) ∧
      (joinR sampleA sampleB = joinR sampleB sampleA ∧
        meetR sampleA sampleB = meetR sampleB sampleA) ∧
      (joinR (joinR sampleA sampleB) sampleC =
          joinR sampleA (joinR sampleB sampleC) ∧
        meetR (meetR sampleA sampleB) sampleC =
          meetR sampleA (meetR sampleB sampleC)) ∧
      (joinR sampleA (meetR sampleA sampleB) = sampleA ∧
        meetR sampleA (joinR sampleA sampleB) = sampleA) ∧
      (leR (joinR (meetR sampleA sampleB) (meetR sampleA sampleC))
          (meetR sampleA (joinR sampleB sampleC)) = true ∧
        leR (joinR sampleA (meetR sampleB sampleC))
          (meetR (joinR sampleA sampleB) (joinR sampleA sampleC)) = true)) ∧
    (leR (joinR sampleA1 sampleB1) (joinR sampleA2 sampleB2) = true ∧
      leR (meetR sampleA1 sampleB1) (meetR sampleA2 sampleB2) = true) :=
  ⟨c2_lattice_laws.1 sampleA sampleB sampleC (by decide) (by decide) (by decide),
    c2_lattice_laws.2 sampleA1 sampleA2 sampleB1 sampleB2 (by decide)
      (by decide) (by decide) (by decide) (by decide) (by decide)⟩

/-- C3: the relation `a <= b` (defined as `overlap(a, b) == a`, with
`a >= b` defined as `enclose(a, b) == a`) is a partial order on Rects —
reflexive, transitive and antisymmetric — and `EMPTY <= a <= PLANE`
holds for every Rect `a`. -/
theorem c3_partial_order :
    ∀ a b c : Rect, validRect a = true → validRect b = true →
      validRect c = true →
      (leR a a = true) ∧
      (leR a b = true → leR b c = true → leR a c = true) ∧
      ((leR a b = true ∧ leR b a = true) ↔ a = b) ∧
      (leR EMPTY a = true ∧ leR a PLANE = true) ∧
      (geR a b = true ↔ leR b a = true) := by
  intro a b c ha hb hc
  exact ⟨leR_refl ha,
    fun h1 h2 => leR_trans ha hb hc h1 h2,
    leR_antisymm_iff ha hb,
    ⟨leR_empty_left a, leR_PLANE ha⟩,
    geR_iff_leR ha hb⟩

/-- Witness for C3 at the sample rectangles. -/
theorem c3_witness :
    (leR sampleA sampleA = true) ∧
    (leR sampleA sampleB = true → leR sampleB sampleC = true →
      leR sampleA sampleC = true) ∧
    ((leR sampleA sampleB = true ∧ leR sampleB sampleA = true) ↔
      sampleA = sampleB) ∧
    (leR EMPTY sampleA = true ∧ leR sampleA PLANE = true) ∧
    (geR sampleA sampleB = true ↔ leR sampleB sampleA = true) :=
  c3_partial_order sampleA sampleB sampleC (by decide) (by decide) (by decide)

/-- C4: Rect construction raises ValueError iff the input is not
iterable or materializes to a length other than 0 or 4; a 4-element
input with `x0 <= x1` and `y0 <= y1` gives exactly those coordinates,
an inverted 4-element input gives EMPTY without error, and a 0-element
input gives EMPTY. -/
theorem c4_construction :
    ∀ input : BoxInput,
      ((∃ e, rectNew input = Except.error e) ↔
        (input = BoxInput.notIterable ∨
          ∃ cs, input = BoxInput.elems cs ∧ cs.length ≠ 0 ∧ cs.length ≠ 4)) ∧
      (∀ x0 y0 x1 y1, input = BoxInput.elems [x0, y0, x1, y1] →
        ((x0.ble x1 = true ∧ y0.ble y1 = true →
            rectNew input = Except.ok [x0, y0, x1, y1]) ∧
          (¬(x0.ble x1 = true ∧ y0.ble y1 = true) →
            rectNew input = Except.ok EMPTY))) ∧
      (input = BoxInput.elems [] → rectNew input = Except.ok EMPTY) := by
  intro input
  cases input with
  | notIterable =>
      refine ⟨⟨fun _ => Or.inl rfl, fun _ => ⟨(), rfl⟩⟩, ?_, ?_⟩
      · intro x0 y0 x1 y1 h
        exact BoxInput.noConfusion h
      · intro h
        exact BoxInput.noConfusion h
  | elems cs =>
      have inj : ∀ {u v : List Coord}, BoxInput.elems u = BoxInput.elems v →
          u = v := by
        intro u v h
        cases h
        rfl
      match cs with
      | [] =>
          refine ⟨⟨?_, ?_⟩, ?_, fun _ => rfl⟩
          · rintro ⟨e, he⟩
            exact Except.noConfusion he
          · rintro (h | ⟨cs1, hcs, hlen, _⟩)
            · exact BoxInput.noConfusion h
            · rw [← inj hcs] at hlen
              exact absurd rfl hlen
          · intro x0 y0 x1 y1 h
            exact List.noConfusion (inj h)
      | [x0, y0, x1, y1] =>
          refine ⟨⟨?_, ?_⟩, ?_, ?_⟩
          · rintro ⟨e, he⟩
            by_cases hg : (x0.ble x1 && y0.ble y1) = true <;>
              simp [rectNew, hg] at he
          · rintro (h | ⟨cs1, hcs, _, hlen4⟩)
            · exact BoxInput.noConfusion h
            · rw [← inj hcs] at hlen4
              exact absurd rfl hlen4
          · intro a0 b0 a1 b1 h
            have e := inj h
            cases e
            constructor
            · rintro ⟨h1, h2⟩
              simp [rectNew, h1, h2]
            · intro hn
              have hg : (x0.ble x1 && y0.ble y1) = false := by
                rcases Bool.eq_false_or_eq_true (x0.ble x1) with h1 | h1
                · rcases Bool.eq_false_or_eq_true (y0.ble y1) with h2 | h2
                  · exact absurd ⟨h1, h2⟩ hn
                  · rw [h2, Bool.and_false]
                · rw [h1, Bool.false_and]
              simp [rectNew, hg, EMPTY]
          · intro h
            exact List.noConfusion (inj h)
      | [c0] =>
          refine ⟨⟨fun _ => Or.inr ⟨[c0], rfl, by simp, by simp⟩,
            fun _ => ⟨(), rfl⟩⟩, ?_, ?_⟩
          · intro x0 y0 x1 y1 h
            have e := inj h
            injection e with e1 e2
            exact List.noConfusion e2
          · intro h
            exact List.noConfusion (inj h)
      | [c0, c1] =>
          refine ⟨⟨fun _ => Or.inr ⟨[c0, c1], rfl, by simp, by simp⟩,
            fun _ => ⟨(), rfl⟩⟩, ?_, ?_⟩
          · intro x0 y0 x1 y1 h
            have e := inj h
            injection e with e1 e2
            injection e2 with e3 e4
            exact List.noConfusion e4
          · intro h
            exact List.noConfusion (inj h)
      | [c0, c1, c2] =>
          refine ⟨⟨fun _ => Or.inr ⟨[c0, c1, c2], rfl, by simp, by simp⟩,
            fun _ => ⟨(), rfl⟩⟩, ?_, ?_⟩
          · intro x0 y0 x1 y1 h
            have e := inj h
            injection e with e1 e2
            injection e2 with e3 e4
            injection e4 with e5 e6
            exact List.noConfusion e6
          · intro h
            exact List.noConfusion (inj h)
      | c0 :: c1 :: c2 :: c3 :: c4 :: rest =>
          refine ⟨⟨fun _ => Or.inr ⟨c0 :: c1 :: c2 :: c3 :: c4 :: rest, rfl,
            by simp, by simp⟩, fun _ => ⟨(), rfl⟩⟩, ?_, ?_⟩
          · intro x0 y0 x1 y1 h
            have e := inj h
            injection e with e1 e2
            injection e2 with e3 e4
            injection e4 with e5 e6
            injection e6 with e7 e8
            exact List.noConfusion e8
          · intro h
            exact List.noConfusion (inj h)

/-- Witness for C4 at a concrete well-formed 4-element input. -/
theorem c4_witness :
    (Coord.ble (Coord.num 1) (Coord.num 3) = true ∧
      Coord.ble (Coord.num 2) (Coord.num 4) = true →
      rectNew (BoxInput.elems sampleA) = Except.ok sampleA) ∧
    (¬(Coord.ble (Coord.num 1) (Coord.num 3) = true ∧
        Coord.ble (Coord.num 2) (Coord.num 4) = true) →
      rectNew (BoxInput.elems sampleA) = Except.ok EMPTY) :=
  (c4_construction (BoxInput.elems sampleA)).2.1
    (Coord.num 1) (Coord.num 2) (Coord.num 3) (Coord.num 4) rfl

/-- C5: called with zero arguments, `Rect.intersection()` returns PLANE
while `Rect.bounding_box()` returns EMPTY, and PLANE differs from
EMPTY. -/
theorem c5_zero_arity :
    intersection [] = PLANE ∧ boundingBox [] = EMPTY ∧ PLANE ≠ EMPTY := by
  refine ⟨rfl, rfl, by decide⟩

/-- C7: a Rect compares equal under `==` to exactly the coordinate
sequences holding equal values, `!=` holds exactly when values differ,
and `!=` is the boolean negation of `==` on sequences. -/
theorem c7_tuple_equality :
    ∀ (r : Rect) (cs : List Coord),
      (pyEq r (PyObj.tup cs) = true ↔ r = cs) ∧
      (pyNe r (PyObj.tup cs) = true ↔ r ≠ cs) ∧
      pyNe r (PyObj.tup cs) = !pyEq r (PyObj.tup cs) := by
  intro r cs
  refine ⟨by simp [pyEq], by simp [pyNe], by simp [pyEq, pyNe]⟩

/-- C8: every coordinate-dependent property on EMPTY fails with an
index-out-of-range error (modelled as `none`), while on a quadruple it
is the pure projection of the four coordinates. -/
theorem c8_empty_properties :
    (leftP EMPTY = none ∧ topP EMPTY = none ∧ rightP EMPTY = none ∧
      bottomP EMPTY = none ∧ leftTopP EMPTY = none ∧
      rightTopP EMPTY = none ∧ leftBottomP EMPTY = none ∧
      rightBottomP EMPTY = none ∧ horizontalP EMPTY = none ∧
      verticalP EMPTY = none ∧ pointsP EMPTY = none ∧
      widthP EMPTY = none ∧ heightP EMPTY = none ∧ sizeP EMPTY = none ∧
      areaP EMPTY = none) ∧
    (∀ a0 a1 a2 a3 : Coord,
      leftP [a0, a1, a2, a3] = some a0 ∧
      topP [a0, a1, a2, a3] = some a1 ∧
      rightP [a0, a1, a2, a3] = some a2 ∧
      bottomP [a0, a1, a2, a3] = some a3 ∧
      leftTopP [a0, a1, a2, a3] = some (a0, a1) ∧
      rightTopP [a0, a1, a2, a3] = some (a2, a1) ∧
      leftBottomP [a0, a1, a2, a3] = some (a0, a3) ∧
      rightBottomP [a0, a1, a2, a3] = some (a2, a3) ∧
      horizontalP [a0, a1, a2, a3] = some (a0, a2) ∧
      verticalP [a0, a1, a2, a3] = some (a1, a3) ∧
      pointsP [a0, a1, a2, a3] = some ((a0, a1), (a2, a3)) ∧
      widthP [a0, a1, a2, a3] = some (a2.sub a0) ∧
      heightP [a0, a1, a2, a3] = some (a3.sub a1) ∧
      sizeP [a0, a1, a2, a3] = some (a2.sub a0, a3.sub a1) ∧
      areaP [a0, a1, a2, a3] = some ((a2.sub a0).mul (a3.sub a1))) := by
  refine ⟨⟨rfl, rfl, rfl, rfl, rfl, rfl, rfl, rfl, rfl, rfl, rfl, rfl, rfl,
    rfl, rfl⟩, ?_⟩
  intro a0 a1 a2 a3
  exact ⟨rfl, rfl, rfl, rfl, rfl, rfl, rfl, rfl, rfl, rfl, rfl, rfl, rfl,
    rfl, rfl⟩

namespace Coord

theorem mul_ble_mono {a b : Coord} (h : a.ble b = true) {q : ℚ} (hq : 0 < q) :
    (a.mul (num q)).ble (b.mul (num q)) = true := by
  cases a <;> cases b <;> simp_all [ble, mul, hq]

end Coord

/-- C6 counterexample: scaling the Rect (1, 2, 3, 4) by the scalar -1
yields EMPTY, not the rectangle whose coordinates are each multiplied
by -1. -/
theorem c6_counterexample :
    mulR sampleA (Coord.num (-1)) = EMPTY ∧
    mulR sampleA (Coord.num (-1)) ≠
      List.map (fun c => c.mul (Coord.num (-1))) sampleA := by
  have e : mulR sampleA (Coord.num (-1)) = EMPTY := by
    show toRect [(Coord.num 1).mul (Coord.num (-1)),
      (Coord.num 2).mul (Coord.num (-1)), (Coord.num 3).mul (Coord.num (-1)),
      (Coord.num 4).mul (Coord.num (-1))] = EMPTY
    norm_num [Coord.mul, toRect, Coord.ble, EMPTY]
  refine ⟨e, ?_⟩
  rw [e]
  intro h
  exact List.noConfusion h

/-- C6 (amended): scaling routes through Rect construction — `EMPTY`
scaled by any scalar is `EMPTY`, and for a non-empty Rect, `r * s` (and
`s * r`, `__rmul__` being the same function) is the quadruple of `r`'s
coordinates each multiplied by `s` exactly when that scaled quadruple is
still non-inverted under Python float comparison — which holds in
particular whenever the scalar is a positive finite number — and
`EMPTY` otherwise. -/
theorem c6_scaling_amended :
    (∀ s : Coord, mulR EMPTY s = EMPTY) ∧
    (∀ a0 a1 a2 a3 s : Coord,
      ((a0.mul s).ble (a2.mul s) = true ∧ (a1.mul s).ble (a3.mul s) = true →
        mulR [a0, a1, a2, a3] s =
          [a0.mul s, a1.mul s, a2.mul s, a3.mul s]) ∧
      (¬((a0.mul s).ble (a2.mul s) = true ∧
          (a1.mul s).ble (a3.mul s) = true) →
        mulR [a0, a1, a2, a3] s = EMPTY)) ∧
    (∀ a0 a1 a2 a3 : Coord, validRect [a0, a1, a2, a3] = true →
      ∀ q : ℚ, 0 < q →
      mulR [a0, a1, a2, a3] (Coord.num q) =
        [a0.mul (Coord.num q), a1.mul (Coord.num q),
          a2.mul (Coord.num q), a3.mul (Coord.num q)]) := by
  refine ⟨fun s => rfl, ?_, ?_⟩
  · intro a0 a1 a2 a3 s
    constructor
    · rintro ⟨h1, h2⟩
      show toRect [a0.mul s, a1.mul s, a2.mul s, a3.mul s] = _
      exact toRect_valid_quad h1 h2
    · intro hn
      show toRect [a0.mul s, a1.mul s, a2.mul s, a3.mul s] = EMPTY
      apply toRect_quad_invalid
      rcases Bool.eq_false_or_eq_true ((a0.mul s).ble (a2.mul s)) with h1 | h1
      · rcases Bool.eq_false_or_eq_true ((a1.mul s).ble (a3.mul s)) with h2 | h2
        · exact absurd ⟨h1, h2⟩ hn
        · rw [h2, Bool.and_false]
      · rw [h1, Bool.false_and]
  · intro a0 a1 a2 a3 hv q hq
    have h12 : a0.ble a2 = true ∧ a1.ble a3 = true := by
      simpa [validRect, Bool.and_eq_true] using hv
    show toRect [a0.mul (Coord.num q), a1.mul (Coord.num q),
      a2.mul (Coord.num q), a3.mul (Coord.num q)] = _
    exact toRect_valid_quad (Coord.mul_ble_mono h12.1 hq)
      (Coord.mul_ble_mono h12.2 hq)

/-- Witness for C6 (amended) at the sample rectangle and scalar 2. -/
theorem c6_witness :
    mulR [Coord.num 1, Coord.num 2, Coord.num 3, Coord.num 4]
        (Coord.num 2) =
      [(Coord.num 1).mul (Coord.num 2), (Coord.num 2).mul (Coord.num 2),
        (Coord.num 3).mul (Coord.num 2), (Coord.num 4).mul (Coord.num 2)] :=
  c6_scaling_amended.2.2 (Coord.num 1) (Coord.num 2) (Coord.num 3)
    (Coord.num 4) (by decide) 2 (by norm_num)

/-- C9: every Rect produced by any public operation — construction,
`from_points`, `from_size`, `bounding_box`, `intersection`, `|`, `&`,
`move`, `*` and the boxes yielded by `bounding_boxes` — is in canonical
form (EMPTY or a non-inverted quadruple), because every result is routed
through Rect construction. -/
theorem c9_canonical_form :
    (∀ input r, rectNew input = Except.ok r → validRect r = true) ∧
    (∀ lt rb, validRect (fromPoints lt rb) = true) ∧
    (∀ size, validRect (fromSize size) = true) ∧
    (∀ rects, validRect (boundingBox rects) = true) ∧
    (∀ rects, validRect (intersection rects) = true) ∧
    (∀ a b, validRect (joinR a b) = true ∧ validRect (meetR a b) = true) ∧
    (∀ r off, validRect (moveR r off) = true) ∧
    (∀ r s, validRect (mulR r s) = true) ∧
    (∀ rects b, b ∈ boundingBoxes rects → validRect b = true) := by
  refine ⟨?_,
    fun lt rb => validRect_toRect [lt.1, lt.2, rb.1, rb.2],
    fun size => validRect_toRect [Coord.num 0, Coord.num 0, size.1, size.2],
    fun rects => validRect_toRect _, fun rects => validRect_toRect _,
    fun a b => ⟨validRect_toRect _, validRect_toRect _⟩,
    fun r off => validRect_toRect _, fun r s => validRect_toRect _, ?_⟩
  · intro input r h
    cases input with
    | notIterable => exact Except.noConfusion h
    | elems cs =>
        match cs with
        | [] =>
            injection h with h'
            rw [← h']
            rfl
        | [x0, y0, x1, y1] =>
            rw [show rectNew (BoxInput.elems [x0, y0, x1, y1]) =
              (if x0.ble x1 && y0.ble y1 then Except.ok [x0, y0, x1, y1]
                else Except.ok ([] : Rect)) from rfl] at h
            split at h
            · injection h with h'
              rw [← h']
              assumption
            · injection h with h'
              rw [← h']
              rfl
        | [_] => exact Except.noConfusion h
        | [_, _] => exact Except.noConfusion h
        | [_, _, _] => exact Except.noConfusion h
        | _ :: _ :: _ :: _ :: _ :: _ => exact Except.noConfusion h
  · intro rects b hb
    unfold boundingBoxes at hb
    rcases List.mem_map.mp hb with ⟨region, _, rfl⟩
    exact validRect_toRect _

/-- Witness for C9: the constructor output at the sample input is
canonical. -/
theorem c9_witness : validRect sampleA = true :=
  c9_canonical_form.1 (BoxInput.elems sampleA) sampleA rfl

/-- C10: `Rect.__hash__` is `tuple.__hash__` itself, so every Rect
hashes exactly like its raw coordinate tuple, and Rects that compare
equal under `==` hash equal. -/
theorem c10_hash :
    (∀ r : Rect, rectHash r = tupleHash r) ∧
    (∀ (r : Rect) (cs : List Coord), pyEq r (PyObj.tup cs) = true →
      rectHash r = tupleHash cs) := by
  refine ⟨fun r => rfl, ?_⟩
  intro r cs h
  have e : r = cs := of_decide_eq_true h
  subst e
  rfl

/-- Witness for C10 at the sample rectangle. -/
theorem c10_witness : rectHash sampleA = tupleHash sampleA :=
  c10_hash.2 sampleA sampleA (by decide)

/-! Correctness of the worklist traversal in `_connected_components`. -/

theorem overlapsB_symm (a b : Rect) : overlapsB a b = overlapsB b a := by
  simp only [overlapsB, hOvB, vOvB]
  generalize (a.getD 0 Coord.nan).ble (b.getD 2 Coord.nan) = p
  generalize (b.getD 0 Coord.nan).ble (a.getD 2 Coord.nan) = q
  generalize (a.getD 1 Coord.nan).ble (b.getD 3 Coord.nan) = r
  generalize (b.getD 1 Coord.nan).ble (a.getD 3 Coord.nan) = s
  rw [Bool.and_comm p q, Bool.and_comm r s]

theorem mem_nbr {S : List Rect} {x y : Rect} :
    y ∈ nbr S x ↔ y ∈ S ∧ overlapsB y x = true := by
  simp [nbr, List.mem_filter]

theorem visit_succ_cons (nb : Rect → List Rect) (fuel : Nat)
    (n : Rect) (rest seen : List Rect) :
    visit nb (Nat.succ fuel) (n :: rest) seen =
      (n :: (visit nb fuel (rest ++ (nb n).filter fun x =>
          decide (x ∉ n :: seen) && decide (x ∉ rest)) (n :: seen)).1,
        (visit nb fuel (rest ++ (nb n).filter fun x =>
          decide (x ∉ n :: seen) && decide (x ∉ rest)) (n :: seen)).2) := rfl

theorem visit_seen_eq (nb : Rect → List Rect) :
    ∀ (fuel : Nat) (todo seen : List Rect),
      (visit nb fuel todo seen).2 = (visit nb fuel todo seen).1.reverse ++ seen
  | 0, todo, seen => rfl
  | Nat.succ fuel, [], seen => rfl
  | Nat.succ fuel, n :: rest, seen => by
      rw [visit_succ_cons, visit_seen_eq nb fuel _ _]
      simp

theorem visit_sound (nb : Rect → List Rect) :
    ∀ (fuel : Nat) (todo seen : List Rect) (y : Rect),
      y ∈ (visit nb fuel todo seen).1 → ∃ t ∈ todo, ReachN nb t y
  | 0, todo, seen, y => by
      intro h
      exact absurd h (by simp [visit])
  | Nat.succ fuel, [], seen, y => by
      intro h
      exact absurd h (by simp [visit])
  | Nat.succ fuel, n :: rest, seen, y => by
      rw [visit_succ_cons]
      intro h
      rcases List.mem_cons.mp h with rfl | h1
      · exact ⟨y, List.mem_cons_self _ _, Relation.ReflTransGen.refl⟩
      · obtain ⟨t, ht, hr⟩ := visit_sound nb fuel _ _ y h1
        rcases List.mem_append.mp ht with h2 | h2
        · exact ⟨t, List.mem_cons_of_mem _ h2, hr⟩
        · exact ⟨n, List.mem_cons_self _ _,
            Relation.ReflTransGen.head (List.mem_of_mem_filter h2) hr⟩

theorem filter_notMem_cons_length :
    ∀ {S : List Rect}, S.Nodup → ∀ {n : Rect} {seen : List Rect},
      n ∈ S → n ∉ seen →
      (S.filter fun x => decide (x ∉ n :: seen)).length + 1 =
        (S.filter fun x => decide (x ∉ seen)).length := by
  intro S
  induction S with
  | nil =>
      intro _ n seen hn
      cases hn
  | cons s S' ih =>
      intro hnd n seen hn hns
      obtain ⟨hsn', hnd'⟩ := List.nodup_cons.mp hnd
      rcases List.mem_cons.mp hn with rfl | hnS'
      · have hfc : S'.filter (fun x => decide (x ∉ n :: seen)) =
            S'.filter (fun x => decide (x ∉ seen)) := by
          apply List.filter_congr
          intro x hx
          have hxn : x ≠ n := fun e => hsn' (e ▸ hx)
          simp [hxn, List.mem_cons]
        have c1 : (decide (n ∉ n :: seen)) = false := by simp
        have c2 : (decide (n ∉ seen)) = true := by simp [hns]
        simp only [List.filter_cons, c1, c2, if_false, if_true, hfc]
        simp
      · by_cases hs : s ∈ seen
        · have c1 : decide (s ∉ n :: seen) = false := by simp [hs]
          have c2 : decide (s ∉ seen) = false := by simp [hs]
          simp only [List.filter_cons, c1, c2]
          simpa using ih hnd' hnS' hns
        · have hsn : s ≠ n := fun e => hsn' (e ▸ hnS')
          have c1 : decide (s ∉ n :: seen) = true := by simp [hs, hsn]
          have c2 : decide (s ∉ seen) = true := by simp [hs]
          simp only [List.filter_cons, c1, c2, if_true, List.length_cons]
          have := ih hnd' hnS' hns
          omega

theorem visit_complete (S : List Rect) (hS : S.Nodup) (nb : Rect → List Rect)
    (hnbS : ∀ x y, y ∈ nb x → y ∈ S)
    (hnbNodup : ∀ x, (nb x).Nodup) :
    ∀ (fuel : Nat) (todo seen : List Rect),
      todo.Nodup →
      (∀ x ∈ todo, x ∈ S) →
      (∀ x ∈ todo, x ∉ seen) →
      (∀ s ∈ seen, ∀ m ∈ nb s, m ∈ seen ∨ m ∈ todo) →
      (S.filter fun x => decide (x ∉ seen)).length ≤ fuel →
      (∀ t ∈ todo, t ∈ (visit nb fuel todo seen).2) ∧
      (∀ s ∈ (visit nb fuel todo seen).2, ∀ m ∈ nb s,
        m ∈ (visit nb fuel todo seen).2) ∧
      (∀ s ∈ seen, s ∈ (visit nb fuel todo seen).2) ∧
      (visit nb fuel todo seen).1.Nodup ∧
      (∀ y ∈ (visit nb fuel todo seen).1, y ∉ seen ∧ y ∈ S)
  | 0, todo, seen => by
      intro hnd hT hdisj hinv hfuel
      have hf : S.filter (fun x => decide (x ∉ seen)) = [] :=
        List.length_eq_zero.mp (Nat.le_zero.mp hfuel)
      have hseen_all : ∀ x, x ∈ S → x ∈ seen := by
        intro x hx
        by_contra hxs
        have hmem : x ∈ S.filter (fun x => decide (x ∉ seen)) :=
          List.mem_filter.mpr ⟨hx, by simp [hxs]⟩
        rw [hf] at hmem
        cases hmem
      refine ⟨?_, ?_, ?_, ?_, ?_⟩
      · intro t ht
        exact (hdisj t ht (hseen_all t (hT t ht))).elim
      · intro s hs m hm
        rcases hinv s hs m hm with h | h
        · exact h
        · exact (hdisj m h (hseen_all m (hT m h))).elim
      · intro s hs
        exact hs
      · exact List.nodup_nil
      · intro y hy
        cases hy
  | Nat.succ fuel, [], seen => by
      intro hnd hT hdisj hinv hfuel
      refine ⟨?_, ?_, ?_, ?_, ?_⟩
      · intro t ht
        cases ht
      · intro s hs m hm
        rcases hinv s hs m hm with h | h
        · exact h
        · cases h
      · intro s hs
        exact hs
      · exact List.nodup_nil
      · intro y hy
        cases hy
  | Nat.succ fuel, n :: rest, seen => by
      intro hnd hT hdisj hinv hfuel
      obtain ⟨hnrest, hndrest⟩ := List.nodup_cons.mp hnd
      have hn_S : n ∈ S := hT n (List.mem_cons_self _ _)
      have hn_seen : n ∉ seen := hdisj n (List.mem_cons_self _ _)
      have h1 : (rest ++ (nb n).filter fun x =>
          decide (x ∉ n :: seen) && decide (x ∉ rest)).Nodup := by
        refine List.Nodup.append hndrest ((hnbNodup n).filter _) ?_
        intro x hx hxF
        have hcond := List.of_mem_filter hxF
        rw [Bool.and_eq_true] at hcond
        exact (of_decide_eq_true hcond.2) hx
      have h2 : ∀ x ∈ (rest ++ (nb n).filter fun x =>
          decide (x ∉ n :: seen) && decide (x ∉ rest)), x ∈ S := by
        intro x hx
        rcases List.mem_append.mp hx with h | h
        · exact hT x (List.mem_cons_of_mem _ h)
        · exact hnbS n x (List.mem_of_mem_filter h)
      have h3 : ∀ x ∈ (rest ++ (nb n).filter fun x =>
          decide (x ∉ n :: seen) && decide (x ∉ rest)), x ∉ n :: seen := by
        intro x hx
        rcases List.mem_append.mp hx with h | h
        · intro hmem
          rcases List.mem_cons.mp hmem with rfl | hmem'
          · exact hnrest h
          · exact hdisj x (List.mem_cons_of_mem _ h) hmem'
        · have hcond := List.of_mem_filter h
          rw [Bool.and_eq_true] at hcond
          exact of_decide_eq_true hcond.1
      have h4 : ∀ s ∈ n :: seen, ∀ m ∈ nb s, m ∈ n :: seen ∨
          m ∈ (rest ++ (nb n).filter fun x =>
            decide (x ∉ n :: seen) && decide (x ∉ rest)) := by
        intro s hs m hm
        rcases List.mem_cons.mp hs with he | hs'
        · rw [he] at hm
          by_cases hm1 : m ∈ n :: seen
          · exact Or.inl hm1
          · by_cases hm2 : m ∈ rest
            · exact Or.inr (List.mem_append.mpr (Or.inl hm2))
            · refine Or.inr (List.mem_append.mpr (Or.inr ?_))
              refine List.mem_filter.mpr ⟨hm, ?_⟩
              rw [Bool.and_eq_true]
              exact ⟨decide_eq_true hm1, decide_eq_true hm2⟩
        · rcases hinv s hs' m hm with h | h
          · exact Or.inl (List.mem_cons_of_mem _ h)
          · rcases List.mem_cons.mp h with rfl | h'
            · exact Or.inl (List.mem_cons_self _ _)
            · exact Or.inr (List.mem_append.mpr (Or.inl h'))
      have h5 : (S.filter fun x => decide (x ∉ n :: seen)).length ≤ fuel := by
        have := filter_notMem_cons_length hS hn_S hn_seen
        omega
      obtain ⟨ia, ib, ic, id, ie⟩ :=
        visit_complete S hS nb hnbS hnbNodup fuel
          (rest ++ (nb n).filter fun x =>
            decide (x ∉ n :: seen) && decide (x ∉ rest)) (n :: seen)
          h1 h2 h3 h4 h5
      rw [visit_succ_cons]
      refine ⟨?_, ?_, ?_, ?_, ?_⟩
      · intro t ht
        rcases List.mem_cons.mp ht with rfl | ht'
        · exact ic t (List.mem_cons_self _ _)
        · exact ia t (List.mem_append.mpr (Or.inl ht'))
      · exact ib
      · intro s hs
        exact ic s (List.mem_cons_of_mem _ hs)
      · refine List.nodup_cons.mpr ⟨?_, id⟩
        intro hmem
        exact (ie n hmem).1 (List.mem_cons_self _ _)
      · intro y hy
        rcases List.mem_cons.mp hy with rfl | hy'
        · exact ⟨hn_seen, hn_S⟩
        · obtain ⟨hys, hyS⟩ := ie y hy'
          exact ⟨fun hc => hys (List.mem_cons_of_mem _ hc), hyS⟩

theorem reach_mem_closed {nb : Rect → List Rect} {T : List Rect}
    (hclosed : ∀ s ∈ T, ∀ m ∈ nb s, m ∈ T) {a y : Rect}
    (ha : a ∈ T) (h : ReachN nb a y) : y ∈ T := by
  induction h with
  | refl => exact ha
  | tail _ hstep ih => exact hclosed _ ih _ hstep

theorem reach_fresh {S : List Rect} {nb : Rect → List Rect}
    (hnbS : ∀ x y, y ∈ nb x → y ∈ S)
    (hsym : ∀ x y, x ∈ S → y ∈ nb x → x ∈ nb y)
    {seen : List Rect} {a y : Rect}
    (hclosed : ∀ s ∈ seen, ∀ m ∈ nb s, m ∈ seen)
    (haS : a ∈ S) (ha : a ∉ seen) (h : ReachN nb a y) :
    y ∉ seen ∧ y ∈ S := by
  induction h with
  | refl => exact ⟨ha, haS⟩
  | tail _ hstep ih =>
      refine ⟨?_, hnbS _ _ hstep⟩
      intro hc
      exact ih.1 (hclosed _ hc _ (hsym _ _ ih.2 hstep))

theorem visit_component (S : List Rect) (hS : S.Nodup) (nb : Rect → List Rect)
    (hnbS : ∀ x y, y ∈ nb x → y ∈ S)
    (hnbNodup : ∀ x, (nb x).Nodup)
    (hsym : ∀ x y, x ∈ S → y ∈ nb x → x ∈ nb y)
    {n : Rect} {seen : List Rect} (hnS : n ∈ S) (hns : n ∉ seen)
    (hclosed : ∀ s ∈ seen, ∀ m ∈ nb s, m ∈ seen) :
    (∀ y, y ∈ (visit nb S.length [n] seen).1 ↔ ReachN nb n y) ∧
    (∀ s ∈ (visit nb S.length [n] seen).2, ∀ m ∈ nb s,
      m ∈ (visit nb S.length [n] seen).2) ∧
    (visit nb S.length [n] seen).1.Nodup ∧
    (∀ y ∈ (visit nb S.length [n] seen).1, y ∉ seen ∧ y ∈ S) := by
  obtain ⟨ia, ib, ic, id, ie⟩ :=
    visit_complete S hS nb hnbS hnbNodup S.length [n] seen
      (List.nodup_singleton n)
      (by
        intro x hx
        rcases List.mem_cons.mp hx with rfl | h
        · exact hnS
        · cases h)
      (by
        intro x hx
        rcases List.mem_cons.mp hx with rfl | h
        · exact hns
        · cases h)
      (by
        intro s hs m hm
        exact Or.inl (hclosed s hs m hm))
      (List.length_filter_le _ _)
  refine ⟨?_, ib, id, ie⟩
  intro y
  constructor
  · intro hy
    obtain ⟨t, ht, hr⟩ := visit_sound nb _ _ _ _ hy
    rcases List.mem_cons.mp ht with he | hf
    · rw [he] at hr
      exact hr
    · cases hf
  · intro hr
    have hyT : y ∈ (visit nb S.length [n] seen).2 :=
      reach_mem_closed ib (ia n (List.mem_cons_self _ _)) hr
    rw [visit_seen_eq] at hyT
    rcases List.mem_append.mp hyT with h | h
    · exact List.mem_reverse.mp h
    · exact absurd h (reach_fresh hnbS hsym hclosed hnS hns hr).1

theorem componentsLoop_spec (S : List Rect) (hS : S.Nodup)
    (nb : Rect → List Rect)
    (hnbS : ∀ x y, y ∈ nb x → y ∈ S)
    (hnbNodup : ∀ x, (nb x).Nodup)
    (hsym : ∀ x y, x ∈ S → y ∈ nb x → x ∈ nb y) :
    ∀ (nodes seen : List Rect),
      (∀ x ∈ nodes, x ∈ S) →
      (∀ s ∈ seen, ∀ m ∈ nb s, m ∈ seen) →
      (∀ C ∈ componentsLoop nb S.length nodes seen,
        ∃ a, a ∈ S ∧ a ∉ seen ∧ ∀ y, (y ∈ C ↔ ReachN nb a y)) ∧
      (∀ x, x ∈ seen →
        (componentsLoop nb S.length nodes seen).countP
          (fun C => decide (x ∈ C)) = 0) ∧
      (∀ x ∈ nodes, x ∉ seen →
        (componentsLoop nb S.length nodes seen).countP
          (fun C => decide (x ∈ C)) = 1)
  | [], seen => by
      intro _ _
      refine ⟨?_, ?_, ?_⟩
      · intro C hC
        cases hC
      · intro x _
        rfl
      · intro x hx
        cases hx
  | n :: nodes', seen => by
      intro hnodes hclosed
      by_cases hn : n ∈ seen
      · have hred : componentsLoop nb S.length (n :: nodes') seen =
            componentsLoop nb S.length nodes' seen := by
          simp [componentsLoop, hn]
        obtain ⟨i1, i2, i3⟩ :=
          componentsLoop_spec S hS nb hnbS hnbNodup hsym nodes' seen
            (fun x hx => hnodes x (List.mem_cons_of_mem _ hx)) hclosed
        rw [hred]
        refine ⟨i1, i2, ?_⟩
        intro x hx hxs
        rcases List.mem_cons.mp hx with he | hx'
        · rw [he] at hxs
          exact absurd hn hxs
        · exact i3 x hx' hxs
      · have hnS := hnodes n (List.mem_cons_self _ _)
        have hred : componentsLoop nb S.length (n :: nodes') seen =
            (visit nb S.length [n] seen).1 ::
              componentsLoop nb S.length nodes'
                (visit nb S.length [n] seen).2 := by
          simp [componentsLoop, hn]
        obtain ⟨hchar, hclosed', hnodup, hfresh⟩ :=
          visit_component S hS nb hnbS hnbNodup hsym hnS hn hclosed
        obtain ⟨i1, i2, i3⟩ :=
          componentsLoop_spec S hS nb hnbS hnbNodup hsym nodes'
            (visit nb S.length [n] seen).2
            (fun x hx => hnodes x (List.mem_cons_of_mem _ hx)) hclosed'
        have hseq := visit_seen_eq nb S.length [n] seen
        rw [hred]
        refine ⟨?_, ?_, ?_⟩
        · intro C hC
          rcases List.mem_cons.mp hC with he | hC'
          · refine ⟨n, hnS, hn, ?_⟩
            intro y
            rw [he]
            exact hchar y
          · obtain ⟨a, haS, hanot, hachar⟩ := i1 C hC'
            refine ⟨a, haS, ?_, hachar⟩
            intro hc
            apply hanot
            rw [hseq]
            exact List.mem_append.mpr (Or.inr hc)
        · intro x hx
          rw [List.countP_cons]
          have hx1 : (decide (x ∈ (visit nb S.length [n] seen).1)) = false := by
            have hnot : x ∉ (visit nb S.length [n] seen).1 :=
              fun hc => (hfresh x hc).1 hx
            simp [hnot]
          have hx2 : x ∈ (visit nb S.length [n] seen).2 := by
            rw [hseq]
            exact List.mem_append.mpr (Or.inr hx)
          rw [i2 x hx2, hx1]
          rfl
        · intro x hx hxs
          rw [List.countP_cons]
          by_cases hxC : x ∈ (visit nb S.length [n] seen).1
          · have hx2 : x ∈ (visit nb S.length [n] seen).2 := by
              rw [hseq]
              exact List.mem_append.mpr (Or.inl (List.mem_reverse.mpr hxC))
            rw [i2 x hx2]
            simp [hxC]
          · have hx' : x ∈ nodes' := by
              rcases List.mem_cons.mp hx with he | h
              · exfalso
                apply hxC
                rw [he]
                exact (hchar n).mpr Relation.ReflTransGen.refl
              · exact h
            have hxs2 : x ∉ (visit nb S.length [n] seen).2 := by
              rw [hseq]
              intro hc
              rcases List.mem_append.mp hc with h | h
              · exact hxC (List.mem_reverse.mp h)
              · exact hxs h
            rw [i3 x hx' hxs2]
            simp [hxC]

theorem reachN_nbr_iff {S : List Rect} {a b : Rect} (ha : a ∈ S) :
    ReachN (nbr S) a b ↔ SpecConnected S a b := by
  constructor
  · intro h
    have hmain : SpecConnected S a b ∧ b ∈ S := by
      induction h with
      | refl => exact ⟨Relation.ReflTransGen.refl, ha⟩
      | tail _ hstep ih =>
          obtain ⟨hc, hbS⟩ := ih
          obtain ⟨hcS, hov⟩ := mem_nbr.mp hstep
          refine ⟨Relation.ReflTransGen.tail hc ⟨hbS, hcS, ?_⟩, hcS⟩
          rw [overlapsB_symm]
          exact hov
    exact hmain.1
  · intro h
    induction h with
    | refl => exact Relation.ReflTransGen.refl
    | tail _ hstep ih =>
        obtain ⟨_, hyS, hov⟩ := hstep
        refine Relation.ReflTransGen.tail ih (mem_nbr.mpr ⟨hyS, ?_⟩)
        rw [overlapsB_symm]
        exact hov

theorem nonEmptyDedup_idem (rects : List Rect) :
    nonEmptyDedup (nonEmptyDedup rects) = nonEmptyDedup rects := by
  unfold nonEmptyDedup
  rw [List.filter_eq_self.mpr, List.dedup_idem]
  intro x hx
  exact (List.mem_filter.mp (List.mem_dedup.mp hx)).2

theorem boundingBoxes_dedup (rects : List Rect) :
    boundingBoxes (nonEmptyDedup rects) = boundingBoxes rects := by
  unfold boundingBoxes connectedComponents
  rw [nonEmptyDedup_idem]

theorem boundingBoxes_nil {rects : List Rect}
    (h : nonEmptyDedup rects = []) : boundingBoxes rects = [] := by
  unfold boundingBoxes connectedComponents
  rw [h]
  rfl

/-- C1: assuming the interval-tree searches return exactly the stored
entries whose interval overlaps the query under closed-interval
semantics, `Rect.bounding_boxes(rects)` yields one `bounding_box`
(enclose) per partition, the partitions are exactly the connected
components of the distinct non-empty input rects under the transitive
closure of pairwise overlap (with boundary touching counting as
overlap), each such rect lies in exactly one yielded component, EMPTY
members and duplicates never affect the result, and an empty or
all-EMPTY input yields zero boxes. -/
theorem c1_bounding_boxes :
    ∀ rects : List Rect, (∀ r ∈ rects, validRect r = true) →
      (boundingBoxes rects =
        (connectedComponents rects).map fun region => boundingBox region) ∧
      (∀ C ∈ connectedComponents rects, ∃ a, a ∈ nonEmptyDedup rects ∧
        ∀ y, (y ∈ C ↔ SpecConnected (nonEmptyDedup rects) a y)) ∧
      (∀ x ∈ nonEmptyDedup rects,
        (connectedComponents rects).countP (fun C => decide (x ∈ C)) = 1) ∧
      (boundingBoxes (nonEmptyDedup rects) = boundingBoxes rects) ∧
      (nonEmptyDedup rects = [] → boundingBoxes rects = []) := by
  intro rects _
  have hS : (nonEmptyDedup rects).Nodup := List.nodup_dedup _
  have hnbS : ∀ x y, y ∈ nbr (nonEmptyDedup rects) x →
      y ∈ nonEmptyDedup rects := fun x y h => (mem_nbr.mp h).1
  have hnbNodup : ∀ x, (nbr (nonEmptyDedup rects) x).Nodup :=
    fun x => hS.filter _
  have hsym : ∀ x y, x ∈ nonEmptyDedup rects →
      y ∈ nbr (nonEmptyDedup rects) x → x ∈ nbr (nonEmptyDedup rects) y := by
    intro x y hx hy
    obtain ⟨_, hov⟩ := mem_nbr.mp hy
    refine mem_nbr.mpr ⟨hx, ?_⟩
    rw [overlapsB_symm]
    exact hov
  obtain ⟨i1, i2, i3⟩ :=
    componentsLoop_spec (nonEmptyDedup rects) hS (nbr (nonEmptyDedup rects))
      hnbS hnbNodup hsym (nonEmptyDedup rects) []
      (fun x hx => hx) (by intro s hs; cases hs)
  have hcc : connectedComponents rects =
      componentsLoop (nbr (nonEmptyDedup rects))
        (nonEmptyDedup rects).length (nonEmptyDedup rects) [] := rfl
  refine ⟨rfl, ?_, ?_, boundingBoxes_dedup rects, fun h => boundingBoxes_nil h⟩
  · intro C hC
    rw [hcc] at hC
    obtain ⟨a, haS, _, hchar⟩ := i1 C hC
    refine ⟨a, haS, ?_⟩
    intro y
    rw [hchar y]
    exact reachN_nbr_iff haS
  · intro x hx
    rw [hcc]
    exact i3 x hx (by intro h; cases h)

/-- Witness for C1 at a concrete collection containing a duplicate and
an EMPTY member. -/
theorem c1_witness :
    (boundingBoxes sampleRects =
      (connectedComponents sampleRects).map fun region =>
        boundingBox region) ∧
    (∀ C ∈ connectedComponents sampleRects, ∃ a,
      a ∈ nonEmptyDedup sampleRects ∧
      ∀ y, (y ∈ C ↔ SpecConnected (nonEmptyDedup sampleRects) a y)) ∧
    (∀ x ∈ nonEmptyDedup sampleRects,
      (connectedComponents sampleRects).countP
        (fun C => decide (x ∈ C)) = 1) ∧
    (boundingBoxes (nonEmptyDedup sampleRects) =
      boundingBoxes sampleRects) ∧
    (nonEmptyDedup sampleRects = [] → boundingBoxes sampleRects = []) :=
  c1_bounding_boxes sampleRects (by decide)
